import Mathlib

/-!
# ticker-network: relay decode loop and tick engine

A shallow embedding of `src/ticker.go` and `src/subscription.go`.

* Go strings and byte slices are lists of bytes (`GoString`), each byte a natural
  number below 256.
* The blocking calls of the two goroutines (`sub.Next`, the channel send, the
  non-blocking `select`) are replaced by explicit input lists: the decode loop is
  driven by the list of results that `sub.Next` returns, the tick loop by the list of
  outcomes of its `select` statements.  What the loops do is recorded as a trace.
* `float64` arithmetic in the clock bump is modelled exactly (binary64 significand
  and exponent, round to nearest, ties to even).
* `json.Marshal` and `json.Unmarshal` belong to the Go standard library. The decode loop
  and `Publish` take them as parameters, and `jsonMarshal` / `jsonUnmarshal` model them
  for the type `TickMessage`.
* `peer.ID.Pretty` belongs to libp2p and is a parameter as well; `b58Encode` is its
  instance in the concrete examples.
* Two engines exchanging ticks are modelled in lock step (`coupledStep`) on top of
  `subtick`, one pass of the inner loop, which `tickLoop` is shown to follow.
-/

namespace TickerNetwork

/-! ## Data model (`ticker.go`) -/

/-- A Go `string` / `[]byte`: a sequence of bytes. -/
abbrev GoString := List Nat

/-- The type `peer.ID`, declared in libp2p as `type ID string`. -/
abbrev PeerID := GoString

/-- `TickMessage` gets converted to/from JSON and sent in the body of pubsub messages. -/
structure TickMessage where
  Message : GoString
  SenderID : GoString
  SenderPeerName : GoString
  deriving DecidableEq, Repr

/-- `DisplayMessage`: message to display, currently the same shape as the network message. -/
structure DisplayMessage where
  Message : GoString
  SenderID : GoString
  SenderPeerName : GoString
  deriving DecidableEq, Repr

def TickMessageBuffSize : Nat := 128
def MillisecondsPerSubTick : Nat := 10
def SubTicksPerTick : Nat := 250

/-! ## binary64 arithmetic used by the clock bump -/

/-- A finite non-negative binary64 value `man * 2 ^ exp`. Only the magnitudes that the
clock can reach are of interest, so the exponent range is not bounded. -/
structure Float64 where
  man : Nat
  exp : Int
  deriving DecidableEq, Repr

/-- Nearest integer to `n / 2 ^ s`, ties to even. -/
def roundHalfEven (n s : Nat) : Nat :=
  let q := n / 2 ^ s
  let r := n % 2 ^ s
  let half := 2 ^ s / 2
  if s = 0 then n
  else if half < r then q + 1
  else if r = half ∧ q % 2 = 1 then q + 1
  else q

/-- Number of binary digits of `n` among its lowest `fuel` digits. -/
def bitLengthAux : Nat → Nat → Nat
  | 0, _ => 0
  | fuel + 1, n => if n = 0 then 0 else bitLengthAux fuel (n / 2) + 1

/-- Number of binary digits of `n` (a number has at most `n` digits). -/
def bitLength (n : Nat) : Nat := bitLengthAux n n

/-- Round `man * 2 ^ exp` to a 53-bit significand. -/
def Float64.round (man : Nat) (exp : Int) : Float64 :=
  if bitLength man ≤ 53 then ⟨man, exp⟩
  else
    let s := bitLength man - 53
    ⟨roundHalfEven man s, exp + (s : Int)⟩

/-- The conversion `float64(n)` of a non-negative `int`. -/
def Float64.ofInt (n : Nat) : Float64 := Float64.round n 0

/-- The product `a * b` of two binary64 values. -/
def Float64.mul (a b : Float64) : Float64 := Float64.round (a.man * b.man) (a.exp + b.exp)

/-- The conversion `int(x)`: truncation toward zero. -/
def Float64.toInt (a : Float64) : Nat :=
  if 0 ≤ a.exp then a.man * 2 ^ a.exp.toNat else a.man / 2 ^ (-a.exp).toNat

/-- `const BumpClock float64 = 0.08`: the binary64 nearest to 0.08 is
`0x3FB47AE147AE147B = 5764607523034235 * 2^-56`. -/
def BumpClock : Float64 := ⟨5764607523034235, -56⟩

/-- The statement `clock += int(float64(clock) * BumpClock)`. -/
def bumpClock (clock : Nat) : Nat :=
  clock + Float64.toInt (Float64.mul (Float64.ofInt clock) BumpClock)

/-! ## The tick engine (`ticker.go`) -/

/-- The fields of `NetworkSubscription` that the modelled code reads. -/
structure NetworkSubscription where
  selfID : PeerID
  peerName : GoString
  deriving DecidableEq, Repr

/-- The string literal `"tick"`. -/
def strTick : GoString := [0x74, 0x69, 0x63, 0x6b]

/-- The string literal `"Tick (Self)"`. -/
def strTickSelf : GoString := [0x54, 0x69, 0x63, 0x6b, 0x20, 0x28, 0x53, 0x65, 0x6c, 0x66, 0x29]

/-- The string literal `"(external)"`. -/
def strExternal : GoString := [0x28, 0x65, 0x78, 0x74, 0x65, 0x72, 0x6e, 0x61, 0x6c, 0x29]

/-- `DisplayMessageFromTickMessage`. -/
def DisplayMessageFromTickMessage (tm : TickMessage) : DisplayMessage :=
  { Message := tm.Message, SenderID := tm.SenderID, SenderPeerName := tm.SenderPeerName }

/-- Outcome of one execution of the `select` statement in `tickLoop`. -/
inductive Poll where
  /-- `case tm, ok := <-ticker.nsub.Messages` with `ok == true` -/
  | msg (tm : TickMessage)
  /-- `case tm, ok := <-ticker.nsub.Messages` with `ok == false`: the channel is closed -/
  | closed
  /-- `default`: no value ready -/
  | empty
  deriving DecidableEq, Repr

/-- What the tick loop does, in program order. Every `sleep` is followed by one
execution of the `select` statement, which consumes one `Poll`. -/
inductive Event where
  /-- `time.Sleep(MillisecondsPerSubTick * time.Millisecond)` -/
  | sleep
  /-- `ticker.DisplayMessages <- dm` -/
  | display (dm : DisplayMessage)
  /-- `ticker.nsub.Publish(content)` -/
  | publish (content : GoString)
  deriving DecidableEq, Repr

/-- The display message built for an external tick (`dm.Message += "(external)"`). -/
def externalDisplay (tm : TickMessage) : DisplayMessage :=
  let dm := DisplayMessageFromTickMessage tm
  { dm with Message := dm.Message ++ strExternal }

/-- The display message built after `Publish` at the end of a cycle. The identity
is rendered by `pretty`, the model of `peer.ID.Pretty`. -/
def selfDisplay (pretty : PeerID → GoString) (nsub : NetworkSubscription) : DisplayMessage :=
  { SenderID := pretty nsub.selfID, Message := strTickSelf, SenderPeerName := nsub.peerName }

/-- The inner `for` loop of `tickLoop`, entered at its head with the given value of
`clock`. Returns the trace and, when the loop left through `break`, the outcomes not
yet consumed; `none` when the supplied outcomes ran out before the `break`. -/
def innerLoop : Nat → List Poll → List Event × Option (List Poll)
  | clock, [] =>
    let clock := clock + 1
    if clock ≥ SubTicksPerTick then ([], some []) else ([], none)
  | clock, p :: rest =>
    let clock := clock + 1
    if clock ≥ SubTicksPerTick then ([], some (p :: rest))
    else
      match p with
      | Poll.msg tm =>
        let r := innerLoop (bumpClock clock) rest
        (Event.sleep :: Event.display (externalDisplay tm) :: r.1, r.2)
      | _ =>
        let r := innerLoop clock rest
        (Event.sleep :: r.1, r.2)

/-- The outer `for` loop of `tickLoop`, run for at most `cycles` cycles: each cycle
starts with `clock := 0`, runs the inner loop, and after its `break` publishes and
emits the self tick. -/
def tickLoop (pretty : PeerID → GoString) (nsub : NetworkSubscription) :
    Nat → List Poll → List Event
  | 0, _ => []
  | cycles + 1, polls =>
    match innerLoop 0 polls with
    | (tr, none) => tr
    | (tr, some rest) =>
      tr ++ Event.publish strTick :: Event.display (selfDisplay pretty nsub)
        :: tickLoop pretty nsub cycles rest

/-- Number of sleep/poll iterations in a trace. -/
def iterations (tr : List Event) : Nat := (tr.filter (fun e => e = Event.sleep)).length

/-- Whether the `select` received a message. -/
def Poll.isMsg : Poll → Bool
  | Poll.msg _ => true
  | _ => false

/-- The outcome seen by an engine that cannot tell a closed stream from an empty one. -/
def Poll.closedAsEmpty : Poll → Poll
  | Poll.closed => Poll.empty
  | p => p

/-- Availability pattern `q` has a message at every poll position where `p` has one. -/
def Dominates (p q : List Poll) : Prop :=
  List.Forall₂ (fun a b => a.isMsg = true → b.isMsg = true) p q

/-! ## The relay (`subscription.go`) -/

def SubscriptionBufSize : Nat := 128

/-- The fields of `pubsub.Message` that `readLoop` reads. -/
structure Message where
  ReceivedFrom : PeerID
  Data : List Nat
  deriving DecidableEq, Repr

/-- Result of one call `nsub.sub.Next(nsub.ctx)`. -/
inductive NextResult where
  /-- `err == nil` -/
  | ok (msg : Message)
  /-- `err != nil` -/
  | err
  deriving DecidableEq, Repr

/-- What the decode loop does to the channel `nsub.Messages`, in program order. -/
inductive RelayEvent where
  /-- `nsub.Messages <- tm` -/
  | send (tm : TickMessage)
  /-- `close(nsub.Messages)` -/
  | close
  deriving DecidableEq, Repr

/-- `NetworkSubscription.readLoop`, driven by the results of the successive calls of
`sub.Next`. `unmarshal` is the call `json.Unmarshal(msg.Data, tm)`: `none` when
it returns an error. The result is the trace of channel operations and whether the
function has returned (`false`: it is blocked in `sub.Next`). -/
def readLoop (unmarshal : List Nat → Option TickMessage) (selfID : PeerID) :
    List NextResult → List RelayEvent × Bool
  | [] => ([], false)
  | NextResult.err :: _ => ([RelayEvent.close], true)
  | NextResult.ok msg :: rest =>
    if msg.ReceivedFrom = selfID then readLoop unmarshal selfID rest
    else
      match unmarshal msg.Data with
      | none => readLoop unmarshal selfID rest
      | some tm =>
        let r := readLoop unmarshal selfID rest
        (RelayEvent.send tm :: r.1, r.2)

/-- Whether a result of `sub.Next` is a message with `msg.ReceivedFrom == nsub.selfID`. -/
def fromSelf (selfID : PeerID) : NextResult → Bool
  | NextResult.ok msg => decide (msg.ReceivedFrom = selfID)
  | NextResult.err => false

/-- `NetworkSubscription.Publish`: the bytes handed to `nsub.topic.Publish`, or `none`
when `json.Marshal` fails and `Publish` returns its error. -/
def Publish (marshal : TickMessage → Option (List Nat)) (pretty : PeerID → GoString)
    (nsub : NetworkSubscription) (message : GoString) : Option (List Nat) :=
  let tm : TickMessage :=
    { Message := message, SenderID := pretty nsub.selfID, SenderPeerName := nsub.peerName }
  match marshal tm with
  | none => none
  | some msgBytes => some msgBytes

/-! ## `unicode/utf8` -/

/-- `utf8.RuneError`, the replacement character U+FFFD. -/
def RuneError : Nat := 0xFFFD

/-- `utf8.DecodeRune`: the first rune of `p` and its width in bytes. An invalid
encoding gives `(RuneError, 1)`, empty input `(RuneError, 0)`. The masks and shifts of the
Go code are written as `%` and `*`. -/
def decodeRune : List Nat → Nat × Nat
  | [] => (RuneError, 0)
  | p0 :: rest =>
    if p0 < 0x80 then (p0, 1)
    else if p0 < 0xC2 then (RuneError, 1)
    else if p0 < 0xE0 then
      match rest with
      | b1 :: _ =>
        if 0x80 ≤ b1 ∧ b1 ≤ 0xBF then (p0 % 0x20 * 0x40 + b1 % 0x40, 2) else (RuneError, 1)
      | _ => (RuneError, 1)
    else if p0 < 0xF0 then
      let lo := if p0 = 0xE0 then 0xA0 else 0x80
      let hi := if p0 = 0xED then 0x9F else 0xBF
      match rest with
      | b1 :: b2 :: _ =>
        if lo ≤ b1 ∧ b1 ≤ hi ∧ 0x80 ≤ b2 ∧ b2 ≤ 0xBF then
          (p0 % 0x10 * 0x1000 + b1 % 0x40 * 0x40 + b2 % 0x40, 3)
        else (RuneError, 1)
      | _ => (RuneError, 1)
    else if p0 < 0xF5 then
      let lo := if p0 = 0xF0 then 0x90 else 0x80
      let hi := if p0 = 0xF4 then 0x8F else 0xBF
      match rest with
      | b1 :: b2 :: b3 :: _ =>
        if lo ≤ b1 ∧ b1 ≤ hi ∧ 0x80 ≤ b2 ∧ b2 ≤ 0xBF ∧ 0x80 ≤ b3 ∧ b3 ≤ 0xBF then
          (p0 % 0x08 * 0x40000 + b1 % 0x40 * 0x1000 + b2 % 0x40 * 0x40 + b3 % 0x40, 4)
        else (RuneError, 1)
      | _ => (RuneError, 1)
    else (RuneError, 1)

/-- `utf8.AppendRune` on an empty buffer: the UTF-8 encoding of `r`; surrogates and
values above U+10FFFF are encoded as U+FFFD. -/
def encodeRune (r : Nat) : List Nat :=
  if r ≤ 0x7F then [r]
  else if r ≤ 0x7FF then [0xC0 + r / 0x40, 0x80 + r % 0x40]
  else if 0x10FFFF < r ∨ (0xD800 ≤ r ∧ r ≤ 0xDFFF) then [0xEF, 0xBF, 0xBD]
  else if r ≤ 0xFFFF then [0xE0 + r / 0x1000, 0x80 + r / 0x40 % 0x40, 0x80 + r % 0x40]
  else [0xF0 + r / 0x40000, 0x80 + r / 0x1000 % 0x40, 0x80 + r / 0x40 % 0x40, 0x80 + r % 0x40]

/-- `utf8.Valid`, with the loop over the input bounded by `fuel`; every pass consumes at
least one byte, so the length of the input is fuel enough. -/
def validUTF8Aux : Nat → List Nat → Bool
  | _, [] => true
  | 0, _ :: _ => false
  | fuel + 1, b :: rest =>
    if b < 0x80 then validUTF8Aux fuel rest
    else
      let d := decodeRune (b :: rest)
      if d.2 = 1 then false else validUTF8Aux fuel (rest.drop (d.2 - 1))

/-- `utf8.Valid`: whether `s` consists entirely of valid UTF-8 encoded runes. -/
def validUTF8 (s : List Nat) : Bool := validUTF8Aux s.length s

/-! ## `encoding/json`, as far as `TickMessage` uses it

`json.Marshal` writes the three exported fields under their Go names, its strings coerced
to valid UTF-8 (every invalid byte becomes the escape for U+FFFD) and HTML-escaped.
`json.Unmarshal` first checks the whole input against the JSON grammar (nesting at most
10000 deep), then stores the members of an object into the struct: keys are matched
exactly or else under case folding, unknown keys are skipped, `null` leaves a field
unchanged, and a value of another kind than string for a known field, or a top-level value
other than an object or `null`, is an `UnmarshalTypeError`.
-/

/-- Indexing into the table `hex = "0123456789abcdef"`. -/
def hexDigit (n : Nat) : Nat := if n < 10 then 0x30 + n else 0x61 + (n - 10)

/-- The table `htmlSafeSet`: printable ASCII except the double quote, ampersand, less-than,
greater-than and backslash characters. -/
def htmlSafe (b : Nat) : Bool :=
  decide (0x20 ≤ b ∧ b < 0x80 ∧ b ≠ 0x22 ∧ b ≠ 0x26 ∧ b ≠ 0x3C ∧ b ≠ 0x3E ∧ b ≠ 0x5C)

/-- The loop of `encodeState.string` with HTML escaping on, bounded by `fuel`: the
characters written between the quotes for the string `s`. Every pass consumes at least
one byte of `s`. -/
def encodeStringBody : Nat → List Nat → List Nat
  | _, [] => []
  | 0, _ :: _ => []
  | fuel + 1, b :: rest =>
    if b < 0x80 then
      if htmlSafe b then b :: encodeStringBody fuel rest
      else if b = 0x5C ∨ b = 0x22 then 0x5C :: b :: encodeStringBody fuel rest
      else if b = 0x0A then 0x5C :: 0x6E :: encodeStringBody fuel rest
      else if b = 0x0D then 0x5C :: 0x72 :: encodeStringBody fuel rest
      else if b = 0x09 then 0x5C :: 0x74 :: encodeStringBody fuel rest
      else
        0x5C :: 0x75 :: 0x30 :: 0x30 :: hexDigit (b / 16) :: hexDigit (b % 16) ::
          encodeStringBody fuel rest
    else
      let d := decodeRune (b :: rest)
      if d.1 = RuneError ∧ d.2 = 1 then
        0x5C :: 0x75 :: 0x66 :: 0x66 :: 0x66 :: 0x64 :: encodeStringBody fuel rest
      else if d.1 = 0x2028 ∨ d.1 = 0x2029 then
        0x5C :: 0x75 :: 0x32 :: 0x30 :: 0x32 :: hexDigit (d.1 % 16) ::
          encodeStringBody fuel (rest.drop (d.2 - 1))
      else
        (b :: rest).take d.2 ++ encodeStringBody fuel (rest.drop (d.2 - 1))

/-- `encodeState.string`: the JSON string literal for `s`. -/
def encodeString (s : GoString) : List Nat :=
  0x22 :: encodeStringBody s.length s ++ [0x22]

/-- The bytes `{"Message":`. -/
def keyMessage : List Nat :=
  [0x7B, 0x22, 0x4D, 0x65, 0x73, 0x73, 0x61, 0x67, 0x65, 0x22, 0x3A]

/-- The bytes `,"SenderID":`. -/
def keySenderID : List Nat :=
  [0x2C, 0x22, 0x53, 0x65, 0x6E, 0x64, 0x65, 0x72, 0x49, 0x44, 0x22, 0x3A]

/-- The bytes `,"SenderPeerName":`. -/
def keySenderPeerName : List Nat :=
  [0x2C, 0x22, 0x53, 0x65, 0x6E, 0x64, 0x65, 0x72, 0x50, 0x65, 0x65, 0x72, 0x4E, 0x61, 0x6D,
    0x65, 0x22, 0x3A]

/-- `json.Marshal(tm)` for a `TickMessage`: an object with the three exported fields
in declaration order. It cannot fail for this type. -/
def jsonMarshal (tm : TickMessage) : Option (List Nat) :=
  some (keyMessage ++ encodeString tm.Message ++ keySenderID ++ encodeString tm.SenderID ++
    keySenderPeerName ++ encodeString tm.SenderPeerName ++ [0x7D])

/-- A parsed JSON value. Numbers and booleans carry no payload: only their kind
matters when decoding into a `TickMessage`. -/
inductive JValue where
  | null
  | bool
  | number
  | string (s : List Nat)
  | array (elems : List JValue)
  | object (members : List (List Nat × JValue))

/-- `isSpace` of the scanner. -/
def isSpace (c : Nat) : Bool := c = 0x20 || c = 0x09 || c = 0x0D || c = 0x0A

def skipSpace : List Nat → List Nat
  | [] => []
  | c :: rest => if isSpace c then skipSpace rest else c :: rest

def isDigit (c : Nat) : Bool := decide (0x30 ≤ c ∧ c ≤ 0x39)

def skipDigits : List Nat → List Nat
  | [] => []
  | c :: rest => if isDigit c then skipDigits rest else c :: rest

/-- Value of a hexadecimal digit, as accepted by the scanner and by `getu4`. -/
def hexVal (c : Nat) : Option Nat :=
  if 0x30 ≤ c ∧ c ≤ 0x39 then some (c - 0x30)
  else if 0x61 ≤ c ∧ c ≤ 0x66 then some (c - 0x61 + 10)
  else if 0x41 ≤ c ∧ c ≤ 0x46 then some (c - 0x41 + 10)
  else none

/-- `getu4`: the rune of a leading `\uXXXX` escape, `none` (Go: `-1`) otherwise. -/
def getu4 : List Nat → Option Nat
  | 0x5C :: 0x75 :: a :: b :: c :: d :: _ =>
    match hexVal a, hexVal b, hexVal c, hexVal d with
    | some a, some b, some c, some d => some (a * 0x1000 + b * 0x100 + c * 0x10 + d)
    | _, _, _, _ => none
  | _ => none

/-- The byte denoted by a one-character escape. -/
def simpleEscape (e : Nat) : Option Nat :=
  if e = 0x22 ∨ e = 0x5C ∨ e = 0x2F then some e
  else if e = 0x62 then some 0x08
  else if e = 0x66 then some 0x0C
  else if e = 0x6E then some 0x0A
  else if e = 0x72 then some 0x0D
  else if e = 0x74 then some 0x09
  else none

/-- Prepend decoded bytes to the result of the rest of a string. -/
def prependBytes (bs : List Nat) : Option (List Nat × List Nat) → Option (List Nat × List Nat)
  | some (s, rest) => some (bs ++ s, rest)
  | none => none

/-- A string literal after its opening quote: the scanner's check of the literal
(escapes well formed, no control character) together with `unquoteBytes`. Returns the
unquoted bytes and the input after the closing quote. Invalid UTF-8 and unpaired
surrogates become U+FFFD. -/
def parseStringBody : Nat → List Nat → Option (List Nat × List Nat)
  | 0, _ => none
  | _ + 1, [] => none
  | fuel + 1, c :: rest =>
    if c = 0x22 then some ([], rest)
    else if c = 0x5C then
      match rest with
      | [] => none
      | e :: rest2 =>
        if e = 0x75 then
          match getu4 (c :: rest) with
          | none => none
          | some rr =>
            let rest6 := rest2.drop 4
            if 0xD800 ≤ rr ∧ rr < 0xE000 then
              match getu4 rest6 with
              | some rr1 =>
                if rr < 0xDC00 ∧ 0xDC00 ≤ rr1 ∧ rr1 < 0xE000 then
                  prependBytes (encodeRune ((rr - 0xD800) * 0x400 + (rr1 - 0xDC00) + 0x10000))
                    (parseStringBody fuel (rest6.drop 6))
                else prependBytes (encodeRune RuneError) (parseStringBody fuel rest6)
              | none => prependBytes (encodeRune RuneError) (parseStringBody fuel rest6)
            else prependBytes (encodeRune rr) (parseStringBody fuel rest6)
        else
          match simpleEscape e with
          | some b => prependBytes [b] (parseStringBody fuel rest2)
          | none => none
    else if c < 0x20 then none
    else if c < 0x80 then prependBytes [c] (parseStringBody fuel rest)
    else
      let d := decodeRune (c :: rest)
      prependBytes (encodeRune d.1) (parseStringBody fuel (rest.drop (d.2 - 1)))

/-- A string literal after its opening quote. -/
def parseString (s : List Nat) : Option (List Nat × List Nat) := parseStringBody s.length s

/-- The scanner's number grammar: the input after a number literal. -/
def parseNumber (s : List Nat) : Option (List Nat) :=
  let s1 := match s with
    | 0x2D :: t => t
    | _ => s
  let afterInt : Option (List Nat) := match s1 with
    | c :: t =>
      if c = 0x30 then some t
      else if 0x31 ≤ c ∧ c ≤ 0x39 then some (skipDigits t)
      else none
    | [] => none
  let afterFrac : Option (List Nat) := match afterInt with
    | none => none
    | some (0x2E :: d :: t) => if isDigit d then some (skipDigits t) else none
    | some (0x2E :: []) => none
    | some r => some r
  match afterFrac with
  | none => none
  | some (e :: t) =>
    if e = 0x65 ∨ e = 0x45 then
      let t1 := match t with
        | 0x2B :: u => u
        | 0x2D :: u => u
        | _ => t
      match t1 with
      | d :: u => if isDigit d then some (skipDigits u) else none
      | [] => none
    else some (e :: t)
  | some [] => some []

/-- The scanner's `maxNestingDepth`. -/
def maxNestingDepth : Nat := 10000

mutual
/-- A JSON value at the head of the input (no leading space), with `depth` containers
open around it. -/
def parseValue : Nat → Nat → List Nat → Option (JValue × List Nat)
  | 0, _, _ => none
  | fuel + 1, depth, s =>
    match s with
    | [] => none
    | c :: t =>
      if c = 0x7B then
        if depth + 1 > maxNestingDepth then none
        else
          match skipSpace t with
          | 0x7D :: r => some (JValue.object [], r)
          | t1 =>
            match parseMembers fuel (depth + 1) t1 with
            | some (ms, r) => some (JValue.object ms, r)
            | none => none
      else if c = 0x5B then
        if depth + 1 > maxNestingDepth then none
        else
          match skipSpace t with
          | 0x5D :: r => some (JValue.array [], r)
          | t1 =>
            match parseElements fuel (depth + 1) t1 with
            | some (es, r) => some (JValue.array es, r)
            | none => none
      else if c = 0x22 then
        match parseString t with
        | some (str, r) => some (JValue.string str, r)
        | none => none
      else if s.take 4 = [0x74, 0x72, 0x75, 0x65] then some (JValue.bool, s.drop 4)
      else if s.take 5 = [0x66, 0x61, 0x6C, 0x73, 0x65] then some (JValue.bool, s.drop 5)
      else if s.take 4 = [0x6E, 0x75, 0x6C, 0x6C] then some (JValue.null, s.drop 4)
      else
        match parseNumber s with
        | some r => some (JValue.number, r)
        | none => none
/-- The members of an object from its first key on, up to and including the closing brace. -/
def parseMembers : Nat → Nat → List Nat → Option (List (List Nat × JValue) × List Nat)
  | 0, _, _ => none
  | fuel + 1, depth, s =>
    match s with
    | 0x22 :: t =>
      match parseString t with
      | none => none
      | some (key, r) =>
        match skipSpace r with
        | 0x3A :: r1 =>
          match parseValue fuel depth (skipSpace r1) with
          | none => none
          | some (v, r2) =>
            match skipSpace r2 with
            | 0x2C :: r3 =>
              match parseMembers fuel depth (skipSpace r3) with
              | some (ms, r4) => some ((key, v) :: ms, r4)
              | none => none
            | 0x7D :: r3 => some ([(key, v)], r3)
            | _ => none
        | _ => none
    | _ => none
/-- The elements of an array from its first element on, up to and including the
closing bracket. -/
def parseElements : Nat → Nat → List Nat → Option (List JValue × List Nat)
  | 0, _, _ => none
  | fuel + 1, depth, s =>
    match parseValue fuel depth s with
    | none => none
    | some (v, r) =>
      match skipSpace r with
      | 0x2C :: r1 =>
        match parseElements fuel depth (skipSpace r1) with
        | some (es, r2) => some (v :: es, r2)
        | none => none
      | 0x5D :: r1 => some ([v], r1)
      | _ => none
end

/-- `checkValid` and the scan of the value: the whole input is one JSON value with
optional surrounding space. -/
def parseJSON (data : List Nat) : Option JValue :=
  match parseValue (data.length + 1) 0 (skipSpace data) with
  | some (v, rest) => if (skipSpace rest).isEmpty then some v else none
  | none => none

/-- The bytes `Message`. -/
def nameMessage : List Nat := [0x4D, 0x65, 0x73, 0x73, 0x61, 0x67, 0x65]
/-- The bytes `SenderID`. -/
def nameSenderID : List Nat := [0x53, 0x65, 0x6E, 0x64, 0x65, 0x72, 0x49, 0x44]
/-- The bytes `SenderPeerName`. -/
def nameSenderPeerName : List Nat :=
  [0x53, 0x65, 0x6E, 0x64, 0x65, 0x72, 0x50, 0x65, 0x65, 0x72, 0x4E, 0x61, 0x6D, 0x65]

/-- `equalFoldRight`: case-insensitive comparison of the ASCII field name `s` with the
key `t`, where the key may spell `s` as U+017F and `k` as U+212A. -/
def equalFoldRight : List Nat → List Nat → Bool
  | [], t => t.isEmpty
  | _ :: _, [] => false
  | sb :: s, tb :: t =>
    if tb < 0x80 then
      if sb ≠ tb then
        let sbUpper := sb &&& 0xDF
        if 0x41 ≤ sbUpper ∧ sbUpper ≤ 0x5A then
          if sbUpper ≠ tb &&& 0xDF then false else equalFoldRight s t
        else false
      else equalFoldRight s t
    else
      let d := decodeRune (tb :: t)
      if sb = 0x73 ∨ sb = 0x53 then
        if d.1 ≠ 0x17F then false else equalFoldRight s (t.drop (d.2 - 1))
      else if sb = 0x6B ∨ sb = 0x4B then
        if d.1 ≠ 0x212A then false else equalFoldRight s (t.drop (d.2 - 1))
      else false

/-- The fields of `TickMessage`. -/
inductive Field where
  | Message
  | SenderID
  | SenderPeerName
  deriving DecidableEq, Repr

/-- The field an object key selects: an exact match of the name, else the first field
whose name matches under case folding, else none (the member is skipped). -/
def findField (key : List Nat) : Option Field :=
  if key = nameMessage then some Field.Message
  else if key = nameSenderID then some Field.SenderID
  else if key = nameSenderPeerName then some Field.SenderPeerName
  else if equalFoldRight nameMessage key then some Field.Message
  else if equalFoldRight nameSenderID key then some Field.SenderID
  else if equalFoldRight nameSenderPeerName key then some Field.SenderPeerName
  else none

/-- Store a string into a field. -/
def setField (tm : TickMessage) (f : Field) (s : GoString) : TickMessage :=
  match f with
  | Field.Message => { tm with Message := s }
  | Field.SenderID => { tm with SenderID := s }
  | Field.SenderPeerName => { tm with SenderPeerName := s }

/-- Decoding the members of an object into `tm`, in order: a string is stored into the
field its key selects, `null` leaves the field alone, any other kind of value for a
known field is an `UnmarshalTypeError`; members with unknown keys are skipped. -/
def storeMembers (tm : TickMessage) : List (List Nat × JValue) → Option TickMessage
  | [] => some tm
  | (key, v) :: ms =>
    match findField key with
    | none => storeMembers tm ms
    | some f =>
      match v with
      | JValue.string s => storeMembers (setField tm f s) ms
      | JValue.null => storeMembers tm ms
      | _ => none

/-- `json.Unmarshal(data, tm)` with `tm := new(TickMessage)`: `none` when it returns an
error (a syntax error, or a JSON value of the wrong kind for the struct or for one of
its fields), else the decoded message. -/
def jsonUnmarshal (data : List Nat) : Option TickMessage :=
  match parseJSON data with
  | none => none
  | some JValue.null => some ⟨[], [], []⟩
  | some (JValue.object ms) => storeMembers ⟨[], [], []⟩ ms
  | some _ => none


/-- A key that `encodeState.string` writes unchanged. -/
def PlainKey (k : List Nat) : Prop := validUTF8 k = true ∧ encodeStringBody k.length k = k


/-! ## `peer.ID.Pretty` -/

/-- The base58 alphabet `123456789ABCDEFGHJKLMNPQRSTUVWXYZabcdefghijkmnopqrstuvwxyz`. -/
def b58Alphabet : List Nat :=
  [0x31, 0x32, 0x33, 0x34, 0x35, 0x36, 0x37, 0x38, 0x39,
   0x41, 0x42, 0x43, 0x44, 0x45, 0x46, 0x47, 0x48, 0x4A, 0x4B, 0x4C, 0x4D, 0x4E, 0x50, 0x51,
   0x52, 0x53, 0x54, 0x55, 0x56, 0x57, 0x58, 0x59, 0x5A,
   0x61, 0x62, 0x63, 0x64, 0x65, 0x66, 0x67, 0x68, 0x69, 0x6A, 0x6B, 0x6D, 0x6E, 0x6F, 0x70,
   0x71, 0x72, 0x73, 0x74, 0x75, 0x76, 0x77, 0x78, 0x79, 0x7A]

/-- The base-58 digits of `n`, most significant first, in front of `acc`. -/
def b58Digits : Nat → Nat → List Nat → List Nat
  | 0, _, acc => acc
  | fuel + 1, n, acc =>
    if n = 0 then acc else b58Digits fuel (n / 58) (b58Alphabet.getD (n % 58) 0 :: acc)

/-- The textual form of a peer identity, `peer.ID.Pretty` of libp2p: the base58 encoding
of the identity bytes (one `1` per leading zero byte, then the digits of the bytes read
as a big-endian number). The tick loop and `Publish` take the textual form as a
parameter; this function is the instance used in the concrete examples. -/
def b58Encode (bin : List Nat) : GoString :=
  List.replicate (bin.takeWhile (fun x => x = 0)).length 0x31 ++
    b58Digits (2 * bin.length) (bin.foldl (fun acc x => acc * 256 + x) 0) []

/-! ## Two engines coupled by simulated message exchange -/

/-- The `select` of one pass of the inner loop: the clock after it, `heard` telling
whether a message was received. -/
def pollClock (clock : Nat) (heard : Bool) : Nat := if heard then bumpClock clock else clock

/-- Whether an engine at the head of its inner loop with clock `h` leaves the loop in
the coming pass (`clock++` reaches `SubTicksPerTick`) and calls `Publish`. -/
def publishesNext (h : Nat) : Bool := decide (SubTicksPerTick ≤ h + 1)

/-- One pass of `tickLoop` from the head of the inner loop, entered with clock `h`, to
the next time the head is reached: `clock++`; when `clock >= SubTicksPerTick` the loop
is left, `Publish` is called and the next cycle starts (`clock := 0`, `clock++`); then
the sleep and the `select`. The result is the clock at the next head. -/
def subtick (h : Nat) (heard : Bool) : Nat :=
  if SubTicksPerTick ≤ h + 1 then pollClock (0 + 1) heard else pollClock (h + 1) heard

/-- One subtick of two engines running in lock step, the state being the two clocks at
the heads of the inner loops. The only communication: the poll of an engine finds a
message exactly when the other engine called `Publish` in this subtick (the call comes
before the sleep, the poll after it). -/
def coupledStep (s : Nat × Nat) : Nat × Nat :=
  (subtick s.1 (publishesNext s.2), subtick s.2 (publishesNext s.1))

/-- Run the coupled engines until the first engine is about to publish, for at most
`fuel` subticks. -/
def untilTick : Nat → Nat × Nat → Nat × Nat
  | 0, s => s
  | fuel + 1, s => if publishesNext s.1 then s else untilTick fuel (coupledStep s)

/-- One coupled cycle: from a subtick in which the first engine publishes to the next
such subtick. -/
def nextTick (s : Nat × Nat) : Nat × Nat := untilTick 250 (coupledStep s)

/-- The state of the coupled engines, started with counters `a0` and `b0`, when the
first engine is about to publish for the `k+1`-st time. -/
def tickState (a0 b0 : Nat) : Nat → Nat × Nat
  | 0 => untilTick 250 (a0, b0)
  | k + 1 => nextTick (tickState a0 b0 k)

/-- Phase offset of the two engines in a subtick in which the first engine publishes
(its counter restarts at phase 0): the phase of the second engine is its counter, 0 when
it publishes too, and the offset is the distance of the two phases on the cycle of 249
subticks. -/
def phaseOffset (s : Nat × Nat) : Nat :=
  let phase := if SubTicksPerTick ≤ s.2 + 1 then 0 else s.2
  min phase (249 - phase)

/-- The second engine's counter after one coupled cycle, in closed form. -/
def returnMap (b : Nat) : Nat :=
  if 249 ≤ b then 249
  else
    let y := b + 1 + 8 * (b + 1) / 100
    if y = 1 then 249
    else if 249 ≤ y then 248
    else
      let z := 251 - y + 8 * (251 - y) / 100
      if 249 ≤ z then 1 else 250 - z

/-- The trace of one engine written with `subtick`: in every pass the engine first
publishes and emits its self tick when `publishesNext` says so, then sleeps and polls.
`tickLoop` is shown to produce exactly this trace. -/
def engineTrace (pretty : PeerID → GoString) (nsub : NetworkSubscription) :
    Nat → List Poll → List Event
  | h, [] =>
    if publishesNext h then [Event.publish strTick, Event.display (selfDisplay pretty nsub)]
    else []
  | h, p :: rest =>
    (if publishesNext h then [Event.publish strTick, Event.display (selfDisplay pretty nsub)]
      else []) ++
    Event.sleep ::
      ((match p with
        | Poll.msg tm => [Event.display (externalDisplay tm)]
        | _ => []) ++ engineTrace pretty nsub (subtick h p.isMsg) rest)

/-! ## Theorems -/

/-! ### The clock bump -/

set_option maxRecDepth 100000 in
theorem bumpClock_eq : ∀ C, C < 250 → bumpClock C = C + 8 * C / 100 := by
  decide

theorem floor_eq_div (C : Nat) : ⌊(C : ℚ) * 8 / 100⌋₊ = 8 * C / 100 := by
  have h : (C : ℚ) * 8 / 100 = ((8 * C : Nat) : ℚ) / ((100 : Nat) : ℚ) := by
    push_cast; ring
  rw [h, Nat.floor_div_eq_div]

/-! ### The inner loop -/

theorem innerLoop_break (clock : Nat) (polls : List Poll) (h : SubTicksPerTick ≤ clock + 1) :
    innerLoop clock polls = ([], some polls) := by
  cases polls <;> simp [innerLoop, h]

theorem innerLoop_msg (clock : Nat) (tm : TickMessage) (rest : List Poll)
    (h : clock + 1 < SubTicksPerTick) :
    innerLoop clock (Poll.msg tm :: rest) =
      (Event.sleep :: Event.display (externalDisplay tm) ::
        (innerLoop (bumpClock (clock + 1)) rest).1,
        (innerLoop (bumpClock (clock + 1)) rest).2) := by
  simp [innerLoop, Nat.not_le.mpr h]

theorem innerLoop_noMsg (clock : Nat) (p : Poll) (rest : List Poll)
    (h : clock + 1 < SubTicksPerTick) (hp : p.isMsg = false) :
    innerLoop clock (p :: rest) =
      (Event.sleep :: (innerLoop (clock + 1) rest).1, (innerLoop (clock + 1) rest).2) := by
  cases p <;> simp [innerLoop, Nat.not_le.mpr h, Poll.isMsg] at hp ⊢

/-- C4: for every counter value `C < 250` the coupling advance
`clock += int(float64(clock) * BumpClock)` sets the counter to `C + floor(C * 8 / 100)`
(the floor taken in exact arithmetic), the result is at least `C`, and for `C = 50` it is
54; in the inner loop, a pass that polls a message with the clock at `C` (after the
increment) goes on with the clock at `C + floor(C * 8 / 100)`. -/
theorem C4_phase_advance (C : Nat) (h : C < 250) :
    bumpClock C = C + ⌊(C : ℚ) * 8 / 100⌋₊ ∧ bumpClock C = C + 8 * C / 100 ∧
      C ≤ bumpClock C ∧ bumpClock 50 = 54 ∧
      (0 < C → ∀ (tm : TickMessage) (rest : List Poll),
        innerLoop (C - 1) (Poll.msg tm :: rest) =
          (Event.sleep :: Event.display (externalDisplay tm) ::
            (innerLoop (C + 8 * C / 100) rest).1, (innerLoop (C + 8 * C / 100) rest).2)) := by
  have h1 := bumpClock_eq C h
  have h2 := bumpClock_eq 50 (by decide)
  refine ⟨?_, h1, ?_, ?_, ?_⟩
  · rw [floor_eq_div]; exact h1
  · omega
  · rw [h2]
  · intro hC tm rest
    have hlt : C - 1 + 1 < SubTicksPerTick := by
      have : C - 1 + 1 = C := by omega
      rw [this]; exact h
    have e : C - 1 + 1 = C := by omega
    rw [innerLoop_msg (C - 1) tm rest hlt, e, h1]

theorem C4_phase_advance_witness :
    50 < 250 ∧ (bumpClock 50 = 50 + ⌊((50 : Nat) : ℚ) * 8 / 100⌋₊ ∧
      bumpClock 50 = 50 + 8 * 50 / 100 ∧ 50 ≤ bumpClock 50 ∧ bumpClock 50 = 54 ∧
      (0 < 50 → ∀ (tm : TickMessage) (rest : List Poll),
        innerLoop (50 - 1) (Poll.msg tm :: rest) =
          (Event.sleep :: Event.display (externalDisplay tm) ::
            (innerLoop (50 + 8 * 50 / 100) rest).1, (innerLoop (50 + 8 * 50 / 100) rest).2))) :=
  ⟨by decide, C4_phase_advance 50 (by decide)⟩

@[simp] theorem iterations_nil : iterations [] = 0 := rfl

@[simp] theorem iterations_sleep (tr : List Event) :
    iterations (Event.sleep :: tr) = iterations tr + 1 := by
  simp [iterations]

@[simp] theorem iterations_display (dm : DisplayMessage) (tr : List Event) :
    iterations (Event.display dm :: tr) = iterations tr := by
  simp [iterations]

@[simp] theorem iterations_publish (c : GoString) (tr : List Event) :
    iterations (Event.publish c :: tr) = iterations tr := by
  simp [iterations]

theorem iterations_replicate_sleep (k : Nat) :
    iterations (List.replicate k Event.sleep) = k := by
  induction k with
  | zero => rfl
  | succ k ih => simp [List.replicate_succ, ih]

/-- With no message at any poll the inner loop entered with `clock` sleeps and polls
`249 - clock` times and then breaks. -/
theorem innerLoop_quiet (k : Nat) : ∀ (clock : Nat) (polls : List Poll),
    clock + k + 1 = SubTicksPerTick → k ≤ polls.length →
    (∀ p ∈ polls.take k, p.isMsg = false) →
    innerLoop clock polls = (List.replicate k Event.sleep, some (polls.drop k)) := by
  induction k with
  | zero =>
    intro clock polls h _ _
    simpa using innerLoop_break clock polls (by omega)
  | succ k ih =>
    intro clock polls h hl hq
    cases polls with
    | nil => simp at hl
    | cons p rest =>
      have hp : p.isMsg = false := hq p (by simp)
      rw [innerLoop_noMsg clock p rest (by omega) hp]
      rw [ih (clock + 1) rest (by omega) (by simpa using hl)
        (fun q hq2 => hq q (by simp [List.take_succ_cons, hq2]))]
      simp [List.replicate_succ]

/-- With at least `249 - clock` outcomes supplied the inner loop reaches its `break`. -/
theorem innerLoop_total : ∀ (polls : List Poll) (clock : Nat),
    SubTicksPerTick ≤ clock + polls.length + 1 →
    ∃ tr rest, innerLoop clock polls = (tr, some rest) := by
  intro polls
  induction polls with
  | nil =>
    intro clock h
    exact ⟨[], [], innerLoop_break clock [] (by simpa using h)⟩
  | cons p rest ih =>
    intro clock h
    by_cases hb : SubTicksPerTick ≤ clock + 1
    · exact ⟨[], p :: rest, innerLoop_break clock _ hb⟩
    · have hlt : clock + 1 < SubTicksPerTick := Nat.not_le.mp hb
      have hlt2 : clock + 1 < 250 := hlt
      cases hp : p.isMsg with
      | false =>
        obtain ⟨tr, r, e⟩ := ih (clock + 1) (by simp at h; omega)
        exact ⟨Event.sleep :: tr, r, by rw [innerLoop_noMsg clock p rest hlt hp, e]⟩
      | true =>
        cases p with
        | msg tm =>
          have hbump := bumpClock_eq (clock + 1) hlt2
          obtain ⟨tr, r, e⟩ := ih (bumpClock (clock + 1)) (by simp at h; omega)
          exact ⟨Event.sleep :: Event.display (externalDisplay tm) :: tr, r,
            by rw [innerLoop_msg clock tm rest hlt, e]⟩
        | closed => simp [Poll.isMsg] at hp
        | empty => simp [Poll.isMsg] at hp

/-- More messages and a later clock never lengthen the inner loop. -/
theorem innerLoop_mono : ∀ (p q : List Poll), Dominates p q → ∀ (c1 c2 : Nat), c1 ≤ c2 →
    ∀ (t1 : List Event) (r1 : List Poll), innerLoop c1 p = (t1, some r1) →
    ∃ t2 r2, innerLoop c2 q = (t2, some r2) ∧ iterations t2 ≤ iterations t1 := by
  intro p q hd
  induction hd with
  | nil =>
    intro c1 c2 hc t1 r1 h1
    by_cases hb : SubTicksPerTick ≤ c1 + 1
    · exact ⟨[], [], innerLoop_break c2 [] (by omega), by simp⟩
    · simp [innerLoop, hb] at h1
  | @cons a b p q hab _ ih =>
    intro c1 c2 hc t1 r1 h1
    by_cases hb2 : SubTicksPerTick ≤ c2 + 1
    · exact ⟨[], b :: q, innerLoop_break c2 _ hb2, by simp⟩
    · have hlt2 : c2 + 1 < SubTicksPerTick := Nat.not_le.mp hb2
      have hlt1 : c1 + 1 < SubTicksPerTick := by omega
      have hn2 : c2 + 1 < 250 := hlt2
      have hn1 : c1 + 1 < 250 := hlt1
      have e1 := bumpClock_eq (c1 + 1) hn1
      have e2 := bumpClock_eq (c2 + 1) hn2
      cases a with
      | msg tm1 =>
        have hbm : b.isMsg = true := hab rfl
        cases b with
        | msg tm2 =>
          rw [innerLoop_msg c1 tm1 p hlt1] at h1
          simp only [Prod.mk.injEq] at h1
          obtain ⟨ht, hr⟩ := h1
          obtain ⟨t2, r2, e, hle⟩ := ih (bumpClock (c1 + 1)) (bumpClock (c2 + 1))
            (by omega) _ r1 (Prod.ext rfl hr)
          refine ⟨_, r2, by rw [innerLoop_msg c2 tm2 q hlt2, e], ?_⟩
          rw [← ht]; simpa using hle
        | closed => simp [Poll.isMsg] at hbm
        | empty => simp [Poll.isMsg] at hbm
      | closed =>
        rw [innerLoop_noMsg c1 Poll.closed p hlt1 rfl] at h1
        simp only [Prod.mk.injEq] at h1
        obtain ⟨ht, hr⟩ := h1
        cases hbm : b.isMsg with
        | false =>
          obtain ⟨t2, r2, e, hle⟩ := ih (c1 + 1) (c2 + 1) (by omega) _ r1 (Prod.ext rfl hr)
          refine ⟨_, r2, by rw [innerLoop_noMsg c2 b q hlt2 hbm, e], ?_⟩
          rw [← ht]; simpa using hle
        | true =>
          cases b with
          | msg tm2 =>
            obtain ⟨t2, r2, e, hle⟩ := ih (c1 + 1) (bumpClock (c2 + 1)) (by omega) _ r1
              (Prod.ext rfl hr)
            refine ⟨_, r2, by rw [innerLoop_msg c2 tm2 q hlt2, e], ?_⟩
            rw [← ht]; simpa using hle
          | closed => simp [Poll.isMsg] at hbm
          | empty => simp [Poll.isMsg] at hbm
      | empty =>
        rw [innerLoop_noMsg c1 Poll.empty p hlt1 rfl] at h1
        simp only [Prod.mk.injEq] at h1
        obtain ⟨ht, hr⟩ := h1
        cases hbm : b.isMsg with
        | false =>
          obtain ⟨t2, r2, e, hle⟩ := ih (c1 + 1) (c2 + 1) (by omega) _ r1 (Prod.ext rfl hr)
          refine ⟨_, r2, by rw [innerLoop_noMsg c2 b q hlt2 hbm, e], ?_⟩
          rw [← ht]; simpa using hle
        | true =>
          cases b with
          | msg tm2 =>
            obtain ⟨t2, r2, e, hle⟩ := ih (c1 + 1) (bumpClock (c2 + 1)) (by omega) _ r1
              (Prod.ext rfl hr)
            refine ⟨_, r2, by rw [innerLoop_msg c2 tm2 q hlt2, e], ?_⟩
            rw [← ht]; simpa using hle
          | closed => simp [Poll.isMsg] at hbm
          | empty => simp [Poll.isMsg] at hbm

theorem dominates_replicate_empty : ∀ (p : List Poll),
    Dominates (List.replicate p.length Poll.empty) p := by
  intro p
  induction p with
  | nil => exact List.Forall₂.nil
  | cons a p ih =>
    exact List.Forall₂.cons (by simp [Poll.isMsg]) ih

theorem innerLoop_closedAsEmpty : ∀ (polls : List Poll) (clock : Nat),
    innerLoop clock (polls.map Poll.closedAsEmpty) =
      ((innerLoop clock polls).1, (innerLoop clock polls).2.map (List.map Poll.closedAsEmpty)) := by
  intro polls
  induction polls with
  | nil => intro clock; by_cases h : SubTicksPerTick ≤ clock + 1 <;> simp [innerLoop, h]
  | cons p rest ih =>
    intro clock
    by_cases h : SubTicksPerTick ≤ clock + 1
    · rw [innerLoop_break clock _ h, innerLoop_break clock _ h]; rfl
    · have hlt : clock + 1 < SubTicksPerTick := Nat.not_le.mp h
      cases p with
      | msg tm =>
        simp only [List.map_cons, Poll.closedAsEmpty]
        rw [innerLoop_msg clock tm _ hlt, innerLoop_msg clock tm _ hlt, ih]
      | closed =>
        simp only [List.map_cons, Poll.closedAsEmpty]
        rw [innerLoop_noMsg clock Poll.empty _ hlt rfl, innerLoop_noMsg clock Poll.closed _ hlt rfl,
          ih]
      | empty =>
        simp only [List.map_cons, Poll.closedAsEmpty]
        rw [innerLoop_noMsg clock Poll.empty (rest.map Poll.closedAsEmpty) hlt rfl,
          innerLoop_noMsg clock Poll.empty rest hlt rfl, ih]

theorem tickLoop_closedAsEmpty (pretty : PeerID → GoString) (nsub : NetworkSubscription) :
    ∀ (cycles : Nat) (polls : List Poll),
      tickLoop pretty nsub cycles (polls.map Poll.closedAsEmpty) =
        tickLoop pretty nsub cycles polls := by
  intro cycles
  induction cycles with
  | zero => intro polls; rfl
  | succ c ih =>
    intro polls
    simp only [tickLoop]
    rw [innerLoop_closedAsEmpty]
    rcases h : innerLoop 0 polls with ⟨tr, _ | rest⟩
    · simp
    · simp [ih]

theorem tickLoop_quiet (pretty : PeerID → GoString) (nsub : NetworkSubscription)
    (cycles : Nat) (polls : List Poll) (hl : 249 ≤ polls.length)
    (hq : ∀ p ∈ polls.take 249, p.isMsg = false) :
    tickLoop pretty nsub (cycles + 1) polls =
      List.replicate 249 Event.sleep ++ Event.publish strTick ::
        Event.display (selfDisplay pretty nsub) :: tickLoop pretty nsub cycles (polls.drop 249) := by
  simp only [tickLoop]
  rw [innerLoop_quiet 249 0 polls rfl hl hq]

/-- C3, the code on the cycle with no external tick: starting with the counter at 0 and
no message at any poll, the inner loop sleeps and polls 249 times (not 250), leaves through
`break` with the remaining outcomes untouched, then `Publish("tick")` is called once, one
self-tick display message with the local identity and name is emitted, and the next cycle
starts from counter 0. -/
theorem C3_quiet_cycle_has_249_subticks (pretty : PeerID → GoString)
    (nsub : NetworkSubscription) (cycles n : Nat) :
    innerLoop 0 (List.replicate (249 + n) Poll.empty) =
        (List.replicate 249 Event.sleep, some (List.replicate n Poll.empty)) ∧
      tickLoop pretty nsub (cycles + 1) (List.replicate (249 + n) Poll.empty) =
        List.replicate 249 Event.sleep ++ Event.publish strTick ::
          Event.display ⟨strTickSelf, pretty nsub.selfID, nsub.peerName⟩ ::
          tickLoop pretty nsub cycles (List.replicate n Poll.empty) ∧
      iterations (innerLoop 0 (List.replicate (249 + n) Poll.empty)).1 = 249 := by
  have hq : ∀ p ∈ (List.replicate (249 + n) Poll.empty).take 249, p.isMsg = false := by
    intro p hp
    have := List.mem_of_mem_take hp
    rw [List.eq_of_mem_replicate this]; rfl
  have hd : (List.replicate (249 + n) Poll.empty).drop 249 = List.replicate n Poll.empty := by
    simp
  have h1 := innerLoop_quiet 249 0 (List.replicate (249 + n) Poll.empty) rfl (by simp) hq
  have h2 := tickLoop_quiet pretty nsub cycles (List.replicate (249 + n) Poll.empty)
    (by simp) hq
  rw [hd] at h1 h2
  refine ⟨h1, h2, ?_⟩
  rw [h1]; exact iterations_replicate_sleep 249

/-- C2, counterexample: the stream is observed closed at the first poll (and at every
later one), yet the loop runs on, calls `Publish` and emits the self-tick display message. -/
theorem C2_counterexample :
    tickLoop id ⟨[1], [2]⟩ 1 (List.replicate 249 Poll.closed) =
      List.replicate 249 Event.sleep ++
        [Event.publish strTick, Event.display ⟨strTickSelf, [1], [2]⟩] := by
  have hq : ∀ p ∈ (List.replicate 249 Poll.closed).take 249, p.isMsg = false := by
    intro p hp
    have := List.mem_of_mem_take hp
    rw [List.eq_of_mem_replicate this]; rfl
  have h := tickLoop_quiet id ⟨[1], [2]⟩ 0 (List.replicate 249 Poll.closed)
    (by rw [List.length_replicate]) hq
  rw [h]; rfl

/-- C2, amended: a poll that observes the closed stream is handled exactly like a poll
that finds no message (no display message, no clock bump): replacing every closed
outcome by an empty one leaves the trace unchanged, and the loop does not halt: a cycle
in which every poll observes the closed stream sleeps and polls 249 times, then calls
`Publish("tick")`, emits the self-tick display message and starts the next cycle. -/
theorem C2_closed_stream_is_ignored (pretty : PeerID → GoString)
    (nsub : NetworkSubscription) (cycles : Nat) :
    (∀ polls : List Poll,
      tickLoop pretty nsub cycles (polls.map Poll.closedAsEmpty) =
        tickLoop pretty nsub cycles polls) ∧
    (∀ n : Nat, tickLoop pretty nsub (cycles + 1) (List.replicate (249 + n) Poll.closed) =
        List.replicate 249 Event.sleep ++ Event.publish strTick ::
          Event.display ⟨strTickSelf, pretty nsub.selfID, nsub.peerName⟩ ::
          tickLoop pretty nsub cycles (List.replicate n Poll.closed)) := by
  refine ⟨tickLoop_closedAsEmpty pretty nsub cycles, ?_⟩
  intro n
  have hq : ∀ p ∈ (List.replicate (249 + n) Poll.closed).take 249, p.isMsg = false := by
    intro p hp
    have := List.mem_of_mem_take hp
    rw [List.eq_of_mem_replicate this]; rfl
  have h := tickLoop_quiet pretty nsub cycles (List.replicate (249 + n) Poll.closed)
    (by rw [List.length_replicate]; omega) hq
  rw [List.drop_replicate, Nat.add_sub_cancel_left] at h
  exact h

/-- C10: if availability pattern `q` has a message at every poll position where `p`
has one, and the patterns cover a whole cycle (at least 249 polls), then the inner loop
reaches its `break` under both, under `q` after no more sleep/poll iterations than under
`p`, and under `p` after no more iterations than the 249 of the cycle with no messages. -/
theorem C10_external_ticks_shorten_cycle (p q : List Poll) (hd : Dominates p q)
    (hlen : 249 ≤ p.length) :
    ∃ tp rp tq rq, innerLoop 0 p = (tp, some rp) ∧ innerLoop 0 q = (tq, some rq) ∧
      iterations tq ≤ iterations tp ∧
      iterations tp ≤ iterations (innerLoop 0 (List.replicate p.length Poll.empty)).1 ∧
      iterations (innerLoop 0 (List.replicate p.length Poll.empty)).1 = 249 := by
  obtain ⟨tp, rp, hp⟩ := innerLoop_total p 0 (by simp [SubTicksPerTick]; omega)
  obtain ⟨tq, rq, hq, hle⟩ := innerLoop_mono p q hd 0 0 (Nat.le_refl 0) tp rp hp
  have hquiet := innerLoop_quiet 249 0 (List.replicate p.length Poll.empty) rfl (by simpa using hlen)
    (by
      intro x hx
      have := List.mem_of_mem_take hx
      rw [List.eq_of_mem_replicate this]; rfl)
  obtain ⟨t0, r0, h0, hle0⟩ := innerLoop_mono _ p (dominates_replicate_empty p) 0 0
    (Nat.le_refl 0) _ _ hquiet
  rw [hp] at h0
  simp only [Prod.mk.injEq] at h0
  refine ⟨tp, rp, tq, rq, hp, hq, hle, ?_, ?_⟩
  · rw [hquiet]; rw [h0.1]; exact hle0
  · rw [hquiet]; exact iterations_replicate_sleep 249

theorem C10_external_ticks_shorten_cycle_witness :
    Dominates (List.replicate 249 Poll.empty)
        (Poll.msg ⟨strTick, [1], [2]⟩ :: List.replicate 248 Poll.empty) ∧
      249 ≤ (List.replicate 249 Poll.empty).length ∧
      ∃ tp rp tq rq, innerLoop 0 (List.replicate 249 Poll.empty) = (tp, some rp) ∧
        innerLoop 0 (Poll.msg ⟨strTick, [1], [2]⟩ :: List.replicate 248 Poll.empty) =
          (tq, some rq) ∧
        iterations tq ≤ iterations tp ∧
        iterations tp ≤ iterations (innerLoop 0
          (List.replicate (List.replicate 249 Poll.empty).length Poll.empty)).1 ∧
        iterations (innerLoop 0
          (List.replicate (List.replicate 249 Poll.empty).length Poll.empty)).1 = 249 :=
  have hd : Dominates (List.replicate 249 Poll.empty)
      (Poll.msg ⟨strTick, [1], [2]⟩ :: List.replicate 248 Poll.empty) :=
    List.Forall₂.cons (by simp [Poll.isMsg])
      (by
        have h := dominates_replicate_empty (List.replicate 248 Poll.empty)
        rwa [List.length_replicate] at h)
  have hl : 249 ≤ (List.replicate 249 Poll.empty).length := by
    rw [List.length_replicate]
  ⟨hd, hl, C10_external_ticks_shorten_cycle _ _ hd hl⟩

/-! ### The decode loop -/

theorem readLoop_ok_append (unmarshal : List Nat → Option TickMessage) (selfID : PeerID) :
    ∀ (msgs : List Message) (post : List NextResult),
      readLoop unmarshal selfID (msgs.map NextResult.ok ++ post) =
        ((msgs.filterMap (fun m =>
            if m.ReceivedFrom = selfID then none else unmarshal m.Data)).map RelayEvent.send ++
          (readLoop unmarshal selfID post).1, (readLoop unmarshal selfID post).2) := by
  intro msgs
  induction msgs with
  | nil => intro post; simp
  | cons m rest ih =>
    intro post
    by_cases hs : m.ReceivedFrom = selfID
    · simp [readLoop, hs, ih]
    · cases hu : unmarshal m.Data with
      | none => simp [readLoop, hs, hu, ih]
      | some tm => simp [readLoop, hs, hu, ih]

theorem readLoop_ok (unmarshal : List Nat → Option TickMessage) (selfID : PeerID)
    (msgs : List Message) :
    readLoop unmarshal selfID (msgs.map NextResult.ok) =
      ((msgs.filterMap (fun m =>
          if m.ReceivedFrom = selfID then none else unmarshal m.Data)).map RelayEvent.send,
        false) := by
  have h := readLoop_ok_append unmarshal selfID msgs []
  simpa [readLoop] using h

/-- Dropping one message that `readLoop` does not forward leaves the run unchanged. -/
theorem readLoop_skip (unmarshal : List Nat → Option TickMessage) (selfID : PeerID)
    (m : Message)
    (hm : (if m.ReceivedFrom = selfID then none else unmarshal m.Data) = none) :
    ∀ (pre post : List NextResult),
      readLoop unmarshal selfID (pre ++ NextResult.ok m :: post) =
        readLoop unmarshal selfID (pre ++ post) := by
  intro pre
  induction pre with
  | nil =>
    intro post
    by_cases hs : m.ReceivedFrom = selfID
    · simp [readLoop, hs]
    · simp only [hs, if_false] at hm
      simp [readLoop, hs, hm]
  | cons r rest ih =>
    intro post
    cases r with
    | err => simp [readLoop]
    | ok m2 =>
      by_cases hs : m2.ReceivedFrom = selfID
      · simp [readLoop, hs, ih]
      · cases hu : unmarshal m2.Data with
        | none => simp [readLoop, hs, hu, ih]
        | some tm => simp [readLoop, hs, hu, ih]

theorem readLoop_source (unmarshal : List Nat → Option TickMessage) (selfID : PeerID) :
    ∀ (inputs : List NextResult) (tm : TickMessage),
      RelayEvent.send tm ∈ (readLoop unmarshal selfID inputs).1 →
      ∃ m, NextResult.ok m ∈ inputs ∧ m.ReceivedFrom ≠ selfID ∧ unmarshal m.Data = some tm := by
  intro inputs
  induction inputs with
  | nil => intro tm h; simp [readLoop] at h
  | cons r rest ih =>
    intro tm h
    cases r with
    | err => simp [readLoop] at h
    | ok m =>
      by_cases hs : m.ReceivedFrom = selfID
      · simp only [readLoop, hs, if_true] at h
        obtain ⟨m2, h1, h2⟩ := ih tm h
        exact ⟨m2, List.mem_cons_of_mem _ h1, h2⟩
      · cases hu : unmarshal m.Data with
        | none =>
          simp only [readLoop, hs, if_false, hu] at h
          obtain ⟨m2, h1, h2⟩ := ih tm h
          exact ⟨m2, List.mem_cons_of_mem _ h1, h2⟩
        | some tm2 =>
          simp only [readLoop, hs, if_false, hu, List.mem_cons, RelayEvent.send.injEq] at h
          rcases h with h | h
          · exact ⟨m, List.mem_cons_self _ _, hs, by rw [hu, h]⟩
          · obtain ⟨m2, h1, h2⟩ := ih tm h
            exact ⟨m2, List.mem_cons_of_mem _ h1, h2⟩

theorem readLoop_filter_self (unmarshal : List Nat → Option TickMessage) (selfID : PeerID) :
    ∀ (inputs : List NextResult),
      readLoop unmarshal selfID (inputs.filter (fun r => !fromSelf selfID r)) = readLoop unmarshal selfID inputs := by
  intro inputs
  induction inputs with
  | nil => rfl
  | cons r rest ih =>
    cases r with
    | err =>
      have hf : fromSelf selfID NextResult.err = false := rfl
      rw [List.filter_cons, hf]; simp [readLoop]
    | ok m =>
      have hf : fromSelf selfID (NextResult.ok m) = decide (m.ReceivedFrom = selfID) := rfl
      rw [List.filter_cons, hf]
      by_cases hs : m.ReceivedFrom = selfID
      · simp [readLoop, hs, ih]
      · cases hu : unmarshal m.Data with
        | none => simp [readLoop, hs, hu, ih]
        | some tm => simp [readLoop, hs, hu, ih]

/-- C1, amended: no message that the transport reports as received from the relay's own
identity (`msg.ReceivedFrom == nsub.selfID`) is ever delivered on the inbound stream:
removing all such messages from the input leaves the run of the decode loop unchanged,
and every delivered `TickMessage` is the decoded payload of a message received from
another peer. -/
theorem C1_self_received_never_delivered (unmarshal : List Nat → Option TickMessage)
    (selfID : PeerID) (inputs : List NextResult) :
    readLoop unmarshal selfID (inputs.filter (fun r => !fromSelf selfID r)) = readLoop unmarshal selfID inputs ∧
    (∀ post : List NextResult, ∀ m : Message, m.ReceivedFrom = selfID →
      readLoop unmarshal selfID (NextResult.ok m :: post) = readLoop unmarshal selfID post) ∧
    ∀ tm, RelayEvent.send tm ∈ (readLoop unmarshal selfID inputs).1 →
      ∃ m, NextResult.ok m ∈ inputs ∧ m.ReceivedFrom ≠ selfID ∧ unmarshal m.Data = some tm := by
  refine ⟨readLoop_filter_self unmarshal selfID inputs, ?_, readLoop_source unmarshal selfID inputs⟩
  intro post m hm
  simp [readLoop, hm]

/-- C6: a message whose payload fails to decode is dropped and the decode loop keeps
running: for it alone the loop neither sends nor closes and does not return; the run on
any input sequence containing it equals the run on the sequence with it removed; when it
arrives between messages read successfully, the stream receives exactly the decoded
payloads of the other messages, those before and those after it, in order of receipt, and
the loop goes on with whatever the transport returns next; so every later message that
was received from another peer and whose payload decodes is sent on the inbound stream. -/
theorem C6_malformed_payload_is_skipped (unmarshal : List Nat → Option TickMessage)
    (selfID : PeerID) (m : Message) (hbad : unmarshal m.Data = none)
    (pre post : List NextResult) :
    readLoop unmarshal selfID [NextResult.ok m] = ([], false) ∧
      readLoop unmarshal selfID (pre ++ NextResult.ok m :: post) =
        readLoop unmarshal selfID (pre ++ post) ∧
      (∀ (before later : List Message) (rest : List NextResult),
        readLoop unmarshal selfID
            (before.map NextResult.ok ++ NextResult.ok m :: (later.map NextResult.ok ++ rest)) =
          (((before ++ later).filterMap (fun x =>
              if x.ReceivedFrom = selfID then none else unmarshal x.Data)).map RelayEvent.send ++
            (readLoop unmarshal selfID rest).1, (readLoop unmarshal selfID rest).2)) ∧
      (∀ (before later : List Message) (rest : List NextResult) (g : Message) (tm : TickMessage),
        g ∈ later → g.ReceivedFrom ≠ selfID → unmarshal g.Data = some tm →
          RelayEvent.send tm ∈ (readLoop unmarshal selfID
            (before.map NextResult.ok ++ NextResult.ok m ::
              (later.map NextResult.ok ++ rest))).1) := by
  have hm : (if m.ReceivedFrom = selfID then none else unmarshal m.Data) = none := by
    split <;> simp [hbad]
  have hrun : ∀ (before later : List Message) (rest : List NextResult),
      readLoop unmarshal selfID
          (before.map NextResult.ok ++ NextResult.ok m :: (later.map NextResult.ok ++ rest)) =
        (((before ++ later).filterMap (fun x =>
            if x.ReceivedFrom = selfID then none else unmarshal x.Data)).map RelayEvent.send ++
          (readLoop unmarshal selfID rest).1, (readLoop unmarshal selfID rest).2) := by
    intro before later rest
    rw [readLoop_skip unmarshal selfID m hm, ← List.append_assoc, ← List.map_append,
      readLoop_ok_append]
  refine ⟨?_, readLoop_skip unmarshal selfID m hm pre post, hrun, ?_⟩
  · have h := readLoop_skip unmarshal selfID m hm [] []
    simpa [readLoop] using h
  · intro before later rest g tm hg hs hu
    rw [hrun]
    apply List.mem_append_left
    apply List.mem_map_of_mem
    rw [List.mem_filterMap]
    exact ⟨g, List.mem_append_right _ hg, by simp [hs, hu]⟩

/-- C7: at the first transport read failure the decode loop closes the inbound stream
and returns: the trace is what was delivered before the failure followed by one `close`,
nothing that the transport would return afterwards has any effect, the stream is closed
exactly once, and while no read has failed the stream is not closed and the loop has not
returned. -/
theorem C7_terminal_closure (unmarshal : List Nat → Option TickMessage) (selfID : PeerID)
    (msgs : List Message) (post : List NextResult) :
    readLoop unmarshal selfID (msgs.map NextResult.ok ++ NextResult.err :: post) =
        ((readLoop unmarshal selfID (msgs.map NextResult.ok)).1 ++ [RelayEvent.close], true) ∧
      (readLoop unmarshal selfID
        (msgs.map NextResult.ok ++ NextResult.err :: post)).1.count RelayEvent.close = 1 ∧
      (readLoop unmarshal selfID (msgs.map NextResult.ok)).2 = false ∧
      RelayEvent.close ∉ (readLoop unmarshal selfID (msgs.map NextResult.ok)).1 := by
  have h1 := readLoop_ok_append unmarshal selfID msgs (NextResult.err :: post)
  have h2 := readLoop_ok unmarshal selfID msgs
  have hc : ∀ l : List TickMessage, (l.map RelayEvent.send).count RelayEvent.close = 0 := by
    intro l
    induction l with
    | nil => rfl
    | cons a l ih => simp [List.count_cons, ih]
  have hn : ∀ l : List TickMessage, RelayEvent.close ∉ l.map RelayEvent.send := by
    intro l; simp
  rw [h1, h2]
  refine ⟨by simp [readLoop], ?_, rfl, hn _⟩
  simp [readLoop, List.count_append, hc]

/-- C9: for every finite sequence of messages successfully read from the transport, the
sequence sent on the inbound stream is, in order of receipt, the decoded payload of
each message that was not received from the relay itself and whose payload decodes;
nothing is deduplicated: a forwarded message is sent as many times as it was received. -/
theorem C9_receipt_order_no_dedup (unmarshal : List Nat → Option TickMessage)
    (selfID : PeerID) (msgs : List Message) :
    readLoop unmarshal selfID (msgs.map NextResult.ok) =
        ((msgs.filterMap (fun m =>
          if m.ReceivedFrom = selfID then none else unmarshal m.Data)).map RelayEvent.send,
          false) ∧
      ∀ (m : Message) (tm : TickMessage), m.ReceivedFrom ≠ selfID → unmarshal m.Data = some tm →
        msgs.count m ≤
          (readLoop unmarshal selfID (msgs.map NextResult.ok)).1.count (RelayEvent.send tm) := by
  refine ⟨readLoop_ok unmarshal selfID msgs, ?_⟩
  intro m tm hs hu
  rw [readLoop_ok]
  induction msgs with
  | nil => simp
  | cons a rest ih =>
    by_cases ha : a = m
    · subst ha
      simp [List.count_cons, hs, hu]
      exact ih
    · by_cases has : a.ReceivedFrom = selfID
      · simp [List.count_cons, ha, has]
        exact ih
      · cases hau : unmarshal a.Data with
        | none =>
          simp [List.count_cons, ha, has, hau]
          exact ih
        | some tm2 =>
          simp [List.count_cons, ha, has, hau]
          exact Nat.le_trans ih (Nat.le_add_right _ _)

/-! ### The JSON codec -/

theorem decodeRune_valid (b : Nat) (rest : List Nat) (hb : 0x80 ≤ b)
    (hn : (decodeRune (b :: rest)).2 ≠ 1) :
    ∃ pre post, rest = pre ++ post ∧ pre.length + 1 = (decodeRune (b :: rest)).2 ∧
      encodeRune (decodeRune (b :: rest)).1 = b :: pre ∧
      ∀ suffix, decodeRune (b :: (pre ++ suffix)) = decodeRune (b :: rest) := by
  unfold decodeRune at hn ⊢
  have h0 : ¬ b < 0x80 := by omega
  simp only [h0, if_false] at hn ⊢
  by_cases h1 : b < 0xC2
  · simp [h1] at hn
  simp only [h1, if_false] at hn ⊢
  by_cases h2 : b < 0xE0
  · simp only [h2, if_true] at hn ⊢
    cases rest with
    | nil => simp at hn
    | cons b1 r1 =>
      simp only at hn ⊢
      by_cases hr : 0x80 ≤ b1 ∧ b1 ≤ 0xBF
      · simp only [hr, and_self, if_true]
        refine ⟨[b1], r1, rfl, rfl, ?_, ?_⟩
        · unfold encodeRune
          have e1 : ¬ (b % 0x20 * 0x40 + b1 % 0x40 ≤ 0x7F) := by omega
          have e2 : b % 0x20 * 0x40 + b1 % 0x40 ≤ 0x7FF := by omega
          simp only [e1, e2, if_false, if_true]
          have e3 : 0xC0 + (b % 0x20 * 0x40 + b1 % 0x40) / 0x40 = b := by omega
          have e4 : 0x80 + (b % 0x20 * 0x40 + b1 % 0x40) % 0x40 = b1 := by omega
          rw [e3, e4]
        · intro suffix
          simp [hr]
      · simp [hr] at hn
  simp only [h2, if_false] at hn ⊢
  by_cases h3 : b < 0xF0
  · simp only [h3, if_true] at hn ⊢
    match rest with
    | [] => simp at hn
    | [_] => simp at hn
    | b1 :: b2 :: r2 =>
      simp only at hn ⊢
      by_cases hr : (if b = 0xE0 then 0xA0 else 0x80) ≤ b1 ∧
          b1 ≤ (if b = 0xED then 0x9F else 0xBF) ∧ 0x80 ≤ b2 ∧ b2 ≤ 0xBF
      · simp only [hr, and_self, if_true]
        refine ⟨[b1, b2], r2, rfl, rfl, ?_, ?_⟩
        · obtain ⟨hr1, hr2, hr3, hr4⟩ := hr
          have hlo : 0x80 ≤ b1 ∧ (b = 0xE0 → 0xA0 ≤ b1) := by
            split at hr1 <;> omega
          have hhi : b1 ≤ 0xBF ∧ (b = 0xED → b1 ≤ 0x9F) := by
            split at hr2 <;> omega
          unfold encodeRune
          have e1 : ¬ (b % 0x10 * 0x1000 + b1 % 0x40 * 0x40 + b2 % 0x40 ≤ 0x7F) := by omega
          have e2 : ¬ (b % 0x10 * 0x1000 + b1 % 0x40 * 0x40 + b2 % 0x40 ≤ 0x7FF) := by omega
          have e3 : ¬ (0x10FFFF < b % 0x10 * 0x1000 + b1 % 0x40 * 0x40 + b2 % 0x40 ∨
              (0xD800 ≤ b % 0x10 * 0x1000 + b1 % 0x40 * 0x40 + b2 % 0x40 ∧
                b % 0x10 * 0x1000 + b1 % 0x40 * 0x40 + b2 % 0x40 ≤ 0xDFFF)) := by omega
          have e4 : b % 0x10 * 0x1000 + b1 % 0x40 * 0x40 + b2 % 0x40 ≤ 0xFFFF := by omega
          simp only [e1, e2, e3, e4, if_false, if_true]
          have f1 : 0xE0 + (b % 0x10 * 0x1000 + b1 % 0x40 * 0x40 + b2 % 0x40) / 0x1000 = b := by
            omega
          have f2 : 0x80 + (b % 0x10 * 0x1000 + b1 % 0x40 * 0x40 + b2 % 0x40) / 0x40 % 0x40
              = b1 := by omega
          have f3 : 0x80 + (b % 0x10 * 0x1000 + b1 % 0x40 * 0x40 + b2 % 0x40) % 0x40 = b2 := by
            omega
          rw [f1, f2, f3]
        · intro suffix
          simp [hr]
      · simp [hr] at hn
  simp only [h3, if_false] at hn ⊢
  by_cases h4 : b < 0xF5
  · simp only [h4, if_true] at hn ⊢
    match rest with
    | [] => simp at hn
    | [_] => simp at hn
    | [_, _] => simp at hn
    | b1 :: b2 :: b3 :: r3 =>
      simp only at hn ⊢
      by_cases hr : (if b = 0xF0 then 0x90 else 0x80) ≤ b1 ∧
          b1 ≤ (if b = 0xF4 then 0x8F else 0xBF) ∧ 0x80 ≤ b2 ∧ b2 ≤ 0xBF ∧ 0x80 ≤ b3 ∧ b3 ≤ 0xBF
      · simp only [hr, and_self, if_true]
        refine ⟨[b1, b2, b3], r3, rfl, rfl, ?_, ?_⟩
        · obtain ⟨hr1, hr2, hr3, hr4, hr5, hr6⟩ := hr
          have hlo : 0x80 ≤ b1 ∧ (b = 0xF0 → 0x90 ≤ b1) := by
            split at hr1 <;> omega
          have hhi : b1 ≤ 0xBF ∧ (b = 0xF4 → b1 ≤ 0x8F) := by
            split at hr2 <;> omega
          unfold encodeRune
          generalize hv : b % 0x08 * 0x40000 + b1 % 0x40 * 0x1000 + b2 % 0x40 * 0x40 + b3 % 0x40
            = v
          have e1 : ¬ (v ≤ 0x7F) := by omega
          have e2 : ¬ (v ≤ 0x7FF) := by omega
          have e3 : ¬ (0x10FFFF < v ∨ (0xD800 ≤ v ∧ v ≤ 0xDFFF)) := by omega
          have e4 : ¬ (v ≤ 0xFFFF) := by omega
          simp only [e1, e2, e3, e4, if_false]
          have f1 : 0xF0 + v / 0x40000 = b := by omega
          have f2 : 0x80 + v / 0x1000 % 0x40 = b1 := by omega
          have f3 : 0x80 + v / 0x40 % 0x40 = b2 := by omega
          have f4 : 0x80 + v % 0x40 = b3 := by omega
          rw [f1, f2, f3, f4]
        · intro suffix
          simp [hr]
      · simp [hr] at hn
  simp [h4] at hn


theorem psb_quote (f : Nat) (t : List Nat) :
    parseStringBody (f + 1) (0x22 :: t) = some ([], t) := by
  simp [parseStringBody]

theorem psb_plain (f c : Nat) (t : List Nat) (h1 : c ≠ 0x22) (h2 : c ≠ 0x5C) (h3 : 0x20 ≤ c)
    (h4 : c < 0x80) :
    parseStringBody (f + 1) (c :: t) = prependBytes [c] (parseStringBody f t) := by
  have h5 : ¬ c < 0x20 := by omega
  simp [parseStringBody, h1, h2, h5, h4]

theorem psb_simple (f e b : Nat) (t : List Nat) (he : e ≠ 0x75) (hs : simpleEscape e = some b) :
    parseStringBody (f + 1) (0x5C :: e :: t) = prependBytes [b] (parseStringBody f t) := by
  simp [parseStringBody, he, hs]

theorem psb_u (f rr : Nat) (t : List Nat) (hg : getu4 (0x5C :: 0x75 :: t) = some rr)
    (hns : ¬ (0xD800 ≤ rr ∧ rr < 0xE000)) :
    parseStringBody (f + 1) (0x5C :: 0x75 :: t) =
      prependBytes (encodeRune rr) (parseStringBody f (t.drop 4)) := by
  simp only [parseStringBody]
  simp [hg, hns]

theorem psb_multi (f c : Nat) (t : List Nat) (h : 0x80 ≤ c) :
    parseStringBody (f + 1) (c :: t) =
      prependBytes (encodeRune (decodeRune (c :: t)).1)
        (parseStringBody f (t.drop ((decodeRune (c :: t)).2 - 1))) := by
  have h1 : c ≠ 0x22 := by omega
  have h2 : c ≠ 0x5C := by omega
  have h3 : ¬ c < 0x20 := by omega
  have h4 : ¬ c < 0x80 := by omega
  simp [parseStringBody, h1, h2, h3, h4]

theorem hexVal_hexDigit : ∀ n, n < 16 → hexVal (hexDigit n) = some n := by
  decide

theorem getu4_low (b : Nat) (t : List Nat) (hb : b < 0x80) :
    getu4 (0x5C :: 0x75 :: 0x30 :: 0x30 :: hexDigit (b / 16) :: hexDigit (b % 16) :: t) =
      some b := by
  have h1 := hexVal_hexDigit (b / 16) (by omega)
  have h2 := hexVal_hexDigit (b % 16) (by omega)
  have h0 : hexVal 0x30 = some 0 := by decide
  simp only [getu4, h0, h1, h2]
  congr 1
  omega


theorem parseStringBody_encode : ∀ (fuel : Nat) (s : List Nat), validUTF8Aux fuel s = true →
    ∀ (tail : List Nat) (fuel2 : Nat), (encodeStringBody fuel s).length < fuel2 →
      parseStringBody fuel2 (encodeStringBody fuel s ++ 0x22 :: tail) = some (s, tail) := by
  intro fuel
  induction fuel with
  | zero =>
    intro s hv tail fuel2 hf
    cases s with
    | nil =>
      obtain ⟨g, rfl⟩ : ∃ g, fuel2 = g + 1 := ⟨fuel2 - 1, by omega⟩
      simp [encodeStringBody, psb_quote]
    | cons b rest => simp [validUTF8Aux] at hv
  | succ fuel ih =>
    intro s hv tail fuel2 hf
    cases s with
    | nil =>
      obtain ⟨g, rfl⟩ : ∃ g, fuel2 = g + 1 := ⟨fuel2 - 1, by omega⟩
      simp [encodeStringBody, psb_quote]
    | cons b rest =>
      obtain ⟨g, rfl⟩ : ∃ g, fuel2 = g + 1 := ⟨fuel2 - 1, by omega⟩
      by_cases hb : b < 0x80
      · have hv2 : validUTF8Aux fuel rest = true := by
          simpa [validUTF8Aux, hb] using hv
        by_cases hs : htmlSafe b = true
        · have hs2 := hs
          simp only [htmlSafe, decide_eq_true_eq] at hs2
          have he : encodeStringBody (fuel + 1) (b :: rest) = b :: encodeStringBody fuel rest := by
            simp [encodeStringBody, hb, hs]
          rw [he] at hf ⊢
          simp only [List.length_cons] at hf
          rw [List.cons_append, psb_plain g b _ hs2.2.2.1 hs2.2.2.2.2.2.2 hs2.1 hb,
            ih rest hv2 tail g (by omega)]
          rfl
        · by_cases hq : b = 0x5C ∨ b = 0x22
          · have he : encodeStringBody (fuel + 1) (b :: rest) =
                0x5C :: b :: encodeStringBody fuel rest := by
              simp [encodeStringBody, hb, hs, hq]
            rw [he] at hf ⊢
            simp only [List.length_cons] at hf
            have hse : simpleEscape b = some b := by
              rcases hq with h | h <;> subst h <;> decide
            rw [List.cons_append, List.cons_append,
              psb_simple g b b _ (by rcases hq with h | h <;> omega) hse,
              ih rest hv2 tail g (by omega)]
            rfl
          · by_cases hn : b = 0x0A
            · have he : encodeStringBody (fuel + 1) (b :: rest) =
                  0x5C :: 0x6E :: encodeStringBody fuel rest := by
                subst hn; simp [encodeStringBody, htmlSafe]
              rw [he] at hf ⊢
              simp only [List.length_cons] at hf
              rw [List.cons_append, List.cons_append,
                psb_simple g 0x6E 0x0A _ (by decide) (by decide),
                ih rest hv2 tail g (by omega), hn]
              rfl
            · by_cases hr : b = 0x0D
              · have he : encodeStringBody (fuel + 1) (b :: rest) =
                    0x5C :: 0x72 :: encodeStringBody fuel rest := by
                  subst hr; simp [encodeStringBody, htmlSafe]
                rw [he] at hf ⊢
                simp only [List.length_cons] at hf
                rw [List.cons_append, List.cons_append,
                  psb_simple g 0x72 0x0D _ (by decide) (by decide),
                  ih rest hv2 tail g (by omega), hr]
                rfl
              · by_cases ht : b = 0x09
                · have he : encodeStringBody (fuel + 1) (b :: rest) =
                      0x5C :: 0x74 :: encodeStringBody fuel rest := by
                    subst ht; simp [encodeStringBody, htmlSafe]
                  rw [he] at hf ⊢
                  simp only [List.length_cons] at hf
                  rw [List.cons_append, List.cons_append,
                    psb_simple g 0x74 0x09 _ (by decide) (by decide),
                    ih rest hv2 tail g (by omega), ht]
                  rfl
                · have he : encodeStringBody (fuel + 1) (b :: rest) =
                      0x5C :: 0x75 :: 0x30 :: 0x30 :: hexDigit (b / 16) :: hexDigit (b % 16) ::
                        encodeStringBody fuel rest := by
                    simp [encodeStringBody, hb, hs, hq, hn, hr, ht]
                  rw [he] at hf ⊢
                  simp only [List.length_cons] at hf
                  simp only [List.cons_append]
                  rw [psb_u g b _ (getu4_low b _ hb) (by omega)]
                  simp only [List.drop_succ_cons, List.drop_zero]
                  rw [ih rest hv2 tail g (by omega)]
                  have : encodeRune b = [b] := by
                    simp [encodeRune, Nat.lt_succ_iff.mp hb]
                  rw [this]; rfl
      · have hb2 : 0x80 ≤ b := by omega
        have hv1 : (decodeRune (b :: rest)).2 ≠ 1 := by
          intro h
          simp [validUTF8Aux, hb, h] at hv
        have hv2 : validUTF8Aux fuel (rest.drop ((decodeRune (b :: rest)).2 - 1)) = true := by
          simpa [validUTF8Aux, hb, hv1] using hv
        obtain ⟨pre, post, hrest, hlen, henc, hdec⟩ := decodeRune_valid b rest hb2 hv1
        have hdrop : rest.drop ((decodeRune (b :: rest)).2 - 1) = post := by
          rw [← hlen, hrest]; simp
        have htake : (b :: rest).take (decodeRune (b :: rest)).2 = b :: pre := by
          rw [← hlen, hrest]; simp
        rw [hdrop] at hv2
        by_cases hls : (decodeRune (b :: rest)).1 = 0x2028 ∨ (decodeRune (b :: rest)).1 = 0x2029
        · have he : encodeStringBody (fuel + 1) (b :: rest) =
              0x5C :: 0x75 :: 0x32 :: 0x30 :: 0x32 :: hexDigit ((decodeRune (b :: rest)).1 % 16) ::
                encodeStringBody fuel post := by
            have hne : (decodeRune (b :: rest)).1 ≠ RuneError := by
              rcases hls with h | h <;> rw [h] <;> decide
            simp only [encodeStringBody, hb, if_false, hne, false_and, hls, if_true, hdrop]
          have hg : ∀ t, getu4 (0x5C :: 0x75 :: 0x32 :: 0x30 :: 0x32 ::
              hexDigit ((decodeRune (b :: rest)).1 % 16) :: t) = some (decodeRune (b :: rest)).1 := by
            intro t
            rcases hls with h | h <;> rw [h] <;> rfl
          rw [he] at hf ⊢
          simp only [List.length_cons] at hf
          simp only [List.cons_append]
          rw [psb_u g _ _ (hg _) (by rcases hls with h | h <;> rw [h] <;> decide)]
          simp only [List.drop_succ_cons, List.drop_zero]
          rw [ih post hv2 tail g (by omega), henc, hrest]
          rfl
        · have he : encodeStringBody (fuel + 1) (b :: rest) =
              (b :: pre) ++ encodeStringBody fuel post := by
            simp only [encodeStringBody, hb, if_false, hv1, and_false, hls, hdrop, htake]
          rw [he] at hf ⊢
          simp only [List.length_cons, List.length_append] at hf
          simp only [List.cons_append, List.append_assoc]
          rw [psb_multi g b _ hb2, hdec, henc]
          have hd2 : (pre ++ (encodeStringBody fuel post ++ 0x22 :: tail)).drop
              ((decodeRune (b :: rest)).2 - 1) = encodeStringBody fuel post ++ 0x22 :: tail := by
            rw [← hlen]; simp
          rw [hd2, ih post hv2 tail g (by omega), hrest]
          rfl


theorem parseString_encode (x tail : List Nat) (hx : validUTF8 x = true) :
    parseString (encodeStringBody x.length x ++ 0x22 :: tail) = some (x, tail) := by
  unfold parseString
  exact parseStringBody_encode x.length x hx tail _ (by simp)

theorem encodeString_append (x tail : List Nat) :
    encodeString x ++ tail = 0x22 :: (encodeStringBody x.length x ++ 0x22 :: tail) := by
  simp [encodeString]

theorem skipSpace_encodeString (x tail : List Nat) :
    skipSpace (encodeString x ++ tail) = encodeString x ++ tail := by
  rw [encodeString_append]; rfl

theorem parseValue_encodeString (f d : Nat) (x tail : List Nat) (hx : validUTF8 x = true) :
    parseValue (f + 1) d (encodeString x ++ tail) = some (JValue.string x, tail) := by
  rw [encodeString_append]
  simp [parseValue, parseString_encode x tail hx]

theorem parseMembers_more (f d : Nat) (k x more : List Nat) (hk : PlainKey k)
    (hx : validUTF8 x = true) :
    parseMembers (f + 2) d (0x22 :: (k ++ 0x22 :: 0x3A :: (encodeString x ++ 0x2C :: 0x22 :: more))) =
      match parseMembers (f + 1) d (0x22 :: more) with
      | some (ms, r) => some ((k, JValue.string x) :: ms, r)
      | none => none := by
  have h1 := parseString_encode k (0x3A :: (encodeString x ++ 0x2C :: 0x22 :: more)) hk.1
  rw [hk.2] at h1
  rw [parseMembers]
  simp only [h1]
  have h2 : skipSpace (0x3A :: (encodeString x ++ 0x2C :: 0x22 :: more)) =
      0x3A :: (encodeString x ++ 0x2C :: 0x22 :: more) := rfl
  simp only [h2, skipSpace_encodeString, parseValue_encodeString f d x _ hx]
  have h3 : skipSpace (0x2C :: 0x22 :: more) = 0x2C :: 0x22 :: more := rfl
  have h4 : skipSpace (0x22 :: more) = 0x22 :: more := rfl
  simp only [h3, h4]

theorem parseMembers_last (f d : Nat) (k x tail : List Nat) (hk : PlainKey k)
    (hx : validUTF8 x = true) :
    parseMembers (f + 2) d (0x22 :: (k ++ 0x22 :: 0x3A :: (encodeString x ++ 0x7D :: tail))) =
      some ([(k, JValue.string x)], tail) := by
  have h1 := parseString_encode k (0x3A :: (encodeString x ++ 0x7D :: tail)) hk.1
  rw [hk.2] at h1
  rw [parseMembers]
  simp only [h1]
  have h2 : skipSpace (0x3A :: (encodeString x ++ 0x7D :: tail)) =
      0x3A :: (encodeString x ++ 0x7D :: tail) := rfl
  simp only [h2, skipSpace_encodeString, parseValue_encodeString f d x _ hx]
  have h3 : skipSpace (0x7D :: tail) = 0x7D :: tail := rfl
  simp only [h3]

theorem plainKey_Message : PlainKey nameMessage := ⟨by decide, by decide⟩
theorem plainKey_SenderID : PlainKey nameSenderID := ⟨by decide, by decide⟩
theorem plainKey_SenderPeerName : PlainKey nameSenderPeerName := ⟨by decide, by decide⟩

theorem jsonUnmarshal_jsonMarshal (tm : TickMessage) (h1 : validUTF8 tm.Message = true)
    (h2 : validUTF8 tm.SenderID = true) (h3 : validUTF8 tm.SenderPeerName = true) :
    ∃ data, jsonMarshal tm = some data ∧ jsonUnmarshal data = some tm := by
  refine ⟨_, rfl, ?_⟩
  obtain ⟨m, s, n⟩ := tm
  simp only at h1 h2 h3
  have hshape : keyMessage ++ encodeString m ++ keySenderID ++ encodeString s ++
      keySenderPeerName ++ encodeString n ++ [0x7D] =
      0x7B :: 0x22 :: (nameMessage ++ 0x22 :: 0x3A :: (encodeString m ++ 0x2C :: 0x22 ::
        (nameSenderID ++ 0x22 :: 0x3A :: (encodeString s ++ 0x2C :: 0x22 ::
          (nameSenderPeerName ++ 0x22 :: 0x3A :: (encodeString n ++ 0x7D :: [])))))) := by
    simp [keyMessage, keySenderID, keySenderPeerName, nameMessage, nameSenderID,
      nameSenderPeerName]
  have hlen : ∃ f, (keyMessage ++ encodeString m ++ keySenderID ++ encodeString s ++
      keySenderPeerName ++ encodeString n ++ [0x7D]).length + 1 = f + 5 := by
    refine ⟨(keyMessage ++ encodeString m ++ keySenderID ++ encodeString s ++
      keySenderPeerName ++ encodeString n ++ [0x7D]).length - 4, ?_⟩
    simp [keyMessage]
  obtain ⟨f, hf⟩ := hlen
  have hparse : parseJSON (keyMessage ++ encodeString m ++ keySenderID ++ encodeString s ++
      keySenderPeerName ++ encodeString n ++ [0x7D]) =
      some (JValue.object [(nameMessage, JValue.string m), (nameSenderID, JValue.string s),
        (nameSenderPeerName, JValue.string n)]) := by
    unfold parseJSON
    rw [hf, hshape]
    have hs : ∀ t, skipSpace (0x7B :: t) = 0x7B :: t := fun _ => rfl
    have hs2 : ∀ t, skipSpace (0x22 :: t) = 0x22 :: t := fun _ => rfl
    rw [hs]
    have hv : parseValue (f + 5) 0 (0x7B :: 0x22 :: (nameMessage ++ 0x22 :: 0x3A ::
        (encodeString m ++ 0x2C :: 0x22 :: (nameSenderID ++ 0x22 :: 0x3A ::
          (encodeString s ++ 0x2C :: 0x22 :: (nameSenderPeerName ++ 0x22 :: 0x3A ::
            (encodeString n ++ 0x7D :: []))))))) =
        some (JValue.object [(nameMessage, JValue.string m), (nameSenderID, JValue.string s),
          (nameSenderPeerName, JValue.string n)], []) := by
      rw [parseValue]
      simp only [hs2, maxNestingDepth]
      rw [parseMembers_more (f + 2) 1 nameMessage m _ plainKey_Message h1,
        parseMembers_more (f + 1) 1 nameSenderID s _ plainKey_SenderID h2,
        parseMembers_last f 1 nameSenderPeerName n _ plainKey_SenderPeerName h3]
      simp
    rw [hv]
    rfl
  show jsonUnmarshal (keyMessage ++ encodeString m ++ keySenderID ++ encodeString s ++
      keySenderPeerName ++ encodeString n ++ [0x7D]) = _
  unfold jsonUnmarshal
  rw [hparse]
  rfl


/-- C8, amended: for every content string that is valid UTF-8, published by a relay whose
name and whose identity in textual form are valid UTF-8, the payload that `Publish(content)`
broadcasts decodes under `json.Unmarshal` to the `TickMessage` whose content is the given
content, whose senderID is the textual form of the publisher's identity and whose
senderPeerName is the publisher's name. -/
theorem C8_publish_decode_round_trip (pretty : PeerID → GoString) (nsub : NetworkSubscription)
    (content : GoString) (hc : validUTF8 content = true)
    (hi : validUTF8 (pretty nsub.selfID) = true) (hn : validUTF8 nsub.peerName = true) :
    ∃ payload, Publish jsonMarshal pretty nsub content = some payload ∧
      jsonUnmarshal payload = some ⟨content, pretty nsub.selfID, nsub.peerName⟩ := by
  obtain ⟨data, hm, hu⟩ := jsonUnmarshal_jsonMarshal ⟨content, pretty nsub.selfID, nsub.peerName⟩
    hc hi hn
  refine ⟨data, ?_, hu⟩
  simp [Publish, hm]

theorem C8_publish_decode_round_trip_witness :
    validUTF8 strTick = true ∧ validUTF8 (b58Encode [0x12, 0x20, 0x07]) = true ∧
      validUTF8 [0x70, 0x63, 0x2D, 0xC3, 0xA9] = true ∧
      ∃ payload, Publish jsonMarshal b58Encode ⟨[0x12, 0x20, 0x07], [0x70, 0x63, 0x2D, 0xC3, 0xA9]⟩
          strTick = some payload ∧
        jsonUnmarshal payload =
          some ⟨strTick, b58Encode [0x12, 0x20, 0x07], [0x70, 0x63, 0x2D, 0xC3, 0xA9]⟩ :=
  ⟨by decide, by decide, by decide,
    C8_publish_decode_round_trip b58Encode ⟨[0x12, 0x20, 0x07], [0x70, 0x63, 0x2D, 0xC3, 0xA9]⟩
      strTick (by decide) (by decide) (by decide)⟩

/-- C8, counterexample: the content string consisting of the single byte `0xFF` is not valid
UTF-8; `Publish` broadcasts it as the escape `\ufffd`, and the decoded content is the three
bytes of U+FFFD, not the content given. -/
theorem C8_counterexample :
    Publish jsonMarshal b58Encode ⟨[0x12, 0x20, 0x07], [0x70, 0x63]⟩ [0xFF] =
        some [0x7B, 0x22, 0x4D, 0x65, 0x73, 0x73, 0x61, 0x67, 0x65, 0x22, 0x3A,
          0x22, 0x5C, 0x75, 0x66, 0x66, 0x66, 0x64, 0x22,
          0x2C, 0x22, 0x53, 0x65, 0x6E, 0x64, 0x65, 0x72, 0x49, 0x44, 0x22, 0x3A,
          0x22, 0x37, 0x36, 0x37, 0x38, 0x22,
          0x2C, 0x22, 0x53, 0x65, 0x6E, 0x64, 0x65, 0x72, 0x50, 0x65, 0x65, 0x72, 0x4E, 0x61,
          0x6D, 0x65, 0x22, 0x3A, 0x22, 0x70, 0x63, 0x22, 0x7D] ∧
      (Publish jsonMarshal b58Encode ⟨[0x12, 0x20, 0x07], [0x70, 0x63]⟩ [0xFF]).bind jsonUnmarshal =
        some ⟨[0xEF, 0xBF, 0xBD], [0x37, 0x36, 0x37, 0x38], [0x70, 0x63]⟩ := by
  decide

/-- C1, counterexample: the relay with identity `[0x12, 0x20, 0x07]` reads a message that
the transport received from another peer (`ReceivedFrom = [0x12, 0x20, 0x08]`) and whose
payload carries the relay's own identity in `SenderID`; the message is delivered. -/
theorem C1_counterexample :
    (jsonMarshal ⟨strTick, b58Encode [0x12, 0x20, 0x07], [0x70, 0x63]⟩).map
        (fun payload => readLoop jsonUnmarshal [0x12, 0x20, 0x07]
          [NextResult.ok ⟨[0x12, 0x20, 0x08], payload⟩]) =
      some ([RelayEvent.send ⟨strTick, b58Encode [0x12, 0x20, 0x07], [0x70, 0x63]⟩], false) := by
  decide

theorem C6_malformed_payload_is_skipped_witness :
    jsonUnmarshal [0x7B, 0x22, 0x4D] = none ∧
      (readLoop jsonUnmarshal [0x12, 0x20, 0x07]
          [NextResult.ok ⟨[0x12, 0x20, 0x08], [0x7B, 0x22, 0x4D]⟩] = ([], false) ∧
        readLoop jsonUnmarshal [0x12, 0x20, 0x07]
            ([] ++ NextResult.ok ⟨[0x12, 0x20, 0x08], [0x7B, 0x22, 0x4D]⟩ ::
              [NextResult.ok ⟨[0x12, 0x20, 0x08], [0x6E, 0x75, 0x6C, 0x6C]⟩]) =
          readLoop jsonUnmarshal [0x12, 0x20, 0x07]
            ([] ++ [NextResult.ok ⟨[0x12, 0x20, 0x08], [0x6E, 0x75, 0x6C, 0x6C]⟩]) ∧
        (∀ (before later : List Message) (rest : List NextResult),
          readLoop jsonUnmarshal [0x12, 0x20, 0x07]
              (before.map NextResult.ok ++ NextResult.ok ⟨[0x12, 0x20, 0x08], [0x7B, 0x22, 0x4D]⟩ ::
                (later.map NextResult.ok ++ rest)) =
            (((before ++ later).filterMap (fun x =>
                if x.ReceivedFrom = [0x12, 0x20, 0x07] then none
                else jsonUnmarshal x.Data)).map RelayEvent.send ++
              (readLoop jsonUnmarshal [0x12, 0x20, 0x07] rest).1,
              (readLoop jsonUnmarshal [0x12, 0x20, 0x07] rest).2)) ∧
        (∀ (before later : List Message) (rest : List NextResult) (g : Message)
            (tm : TickMessage),
          g ∈ later → g.ReceivedFrom ≠ [0x12, 0x20, 0x07] → jsonUnmarshal g.Data = some tm →
            RelayEvent.send tm ∈ (readLoop jsonUnmarshal [0x12, 0x20, 0x07]
              (before.map NextResult.ok ++
                NextResult.ok ⟨[0x12, 0x20, 0x08], [0x7B, 0x22, 0x4D]⟩ ::
                  (later.map NextResult.ok ++ rest))).1)) ∧
      readLoop jsonUnmarshal [0x12, 0x20, 0x07]
          [NextResult.ok ⟨[0x12, 0x20, 0x08], [0x7B, 0x22, 0x4D]⟩,
            NextResult.ok ⟨[0x12, 0x20, 0x08],
              [0x7B, 0x22, 0x4D, 0x65, 0x73, 0x73, 0x61, 0x67, 0x65, 0x22, 0x3A,
                0x22, 0x74, 0x69, 0x63, 0x6B, 0x22,
                0x2C, 0x22, 0x53, 0x65, 0x6E, 0x64, 0x65, 0x72, 0x49, 0x44, 0x22, 0x3A,
                0x22, 0x37, 0x36, 0x37, 0x39, 0x22,
                0x2C, 0x22, 0x53, 0x65, 0x6E, 0x64, 0x65, 0x72, 0x50, 0x65, 0x65, 0x72, 0x4E,
                0x61, 0x6D, 0x65, 0x22, 0x3A, 0x22, 0x70, 0x63, 0x22, 0x7D]⟩] =
        ([RelayEvent.send ⟨strTick, [0x37, 0x36, 0x37, 0x39], [0x70, 0x63]⟩], false) :=
  ⟨by decide, C6_malformed_payload_is_skipped jsonUnmarshal [0x12, 0x20, 0x07]
    ⟨[0x12, 0x20, 0x08], [0x7B, 0x22, 0x4D]⟩ (by decide) []
    [NextResult.ok ⟨[0x12, 0x20, 0x08], [0x6E, 0x75, 0x6C, 0x6C]⟩], by decide⟩

/-! ### Two coupled engines -/

theorem pollClock_false (c : Nat) : pollClock c false = c := rfl

theorem pollClock_true (c : Nat) (h : c < 250) : pollClock c true = c + 8 * c / 100 := by
  simp [pollClock, bumpClock_eq c h]

theorem subtick_quiet (h : Nat) (hh : h + 1 < 250) : subtick h false = h + 1 := by
  have : ¬ SubTicksPerTick ≤ h + 1 := by simp [SubTicksPerTick]; omega
  simp [subtick, this, pollClock]

theorem subtick_heard (h : Nat) (hh : h + 1 < 250) :
    subtick h true = h + 1 + 8 * (h + 1) / 100 := by
  have : ¬ SubTicksPerTick ≤ h + 1 := by simp [SubTicksPerTick]; omega
  simp [subtick, this, pollClock_true (h + 1) hh]

theorem subtick_publish (h : Nat) (heard : Bool) (hh : 249 ≤ h) : subtick h heard = 1 := by
  have : SubTicksPerTick ≤ h + 1 := by simp [SubTicksPerTick]; omega
  cases heard
  · simp [subtick, this, pollClock]
  · simp [subtick, this, pollClock_true 1 (by decide)]

theorem publishesNext_iff (h : Nat) : publishesNext h = true ↔ 249 ≤ h := by
  simp [publishesNext, SubTicksPerTick]

theorem publishesNext_false (h : Nat) (hh : h < 249) : publishesNext h = false := by
  simp [publishesNext, SubTicksPerTick]; omega

theorem publishesNext_true (h : Nat) (hh : 249 ≤ h) : publishesNext h = true :=
  (publishesNext_iff h).mpr hh

theorem coupledStep_quiet (a b : Nat) (ha : a < 249) (hb : b < 249) :
    coupledStep (a, b) = (a + 1, b + 1) := by
  simp [coupledStep, publishesNext_false a ha, publishesNext_false b hb,
    subtick_quiet a (by omega), subtick_quiet b (by omega)]

theorem untilTick_step (fuel a b : Nat) (ha : a < 249) :
    untilTick (fuel + 1) (a, b) = untilTick fuel (coupledStep (a, b)) := by
  simp [untilTick, publishesNext_false a ha]

theorem untilTick_quiet (n : Nat) : ∀ (fuel a b : Nat), a + n ≤ 249 → b + n ≤ 249 →
    untilTick (fuel + n) (a, b) = untilTick fuel (a + n, b + n) := by
  induction n with
  | zero => intro fuel a b _ _; rfl
  | succ n ih =>
    intro fuel a b ha hb
    have h1 : untilTick (fuel + (n + 1)) (a, b) = untilTick (fuel + n) (coupledStep (a, b)) :=
      untilTick_step (fuel + n) a b (by omega)
    rw [h1, coupledStep_quiet a b (by omega) (by omega), ih fuel (a + 1) (b + 1) (by omega) (by omega)]
    congr 2 <;> omega

theorem untilTick_stop (fuel a b : Nat) (ha : 249 ≤ a) : untilTick fuel (a, b) = (a, b) := by
  cases fuel with
  | zero => rfl
  | succ f => simp [untilTick, publishesNext_true a ha]

/-- The coupled cycle computed step by step agrees with the closed form. -/
theorem nextTick_eq (a b : Nat) (ha : 249 ≤ a) (hb : b ≤ 268) :
    nextTick (a, b) = (249, returnMap b) ∨
      (nextTick (a, b)).2 = returnMap b ∧ 249 ≤ (nextTick (a, b)).1 := by
  unfold nextTick
  by_cases hb1 : 249 ≤ b
  · -- both publish
    left
    have hs : coupledStep (a, b) = (1, 1) := by
      simp [coupledStep, subtick_publish a _ ha, subtick_publish b _ hb1]
    have hq := untilTick_quiet 248 2 1 1 (by omega) (by omega)
    have hr : returnMap b = 249 := by simp [returnMap, hb1]
    rw [hs, hr]
    show untilTick (2 + 248) (1, 1) = _
    rw [hq, untilTick_stop 2 _ _ (by omega)]
  · have hb2 : b < 249 := by omega
    have hs : coupledStep (a, b) = (1, b + 1 + 8 * (b + 1) / 100) := by
      simp [coupledStep, subtick_publish a _ ha, publishesNext_true a ha,
        publishesNext_false b hb2, subtick_heard b (by omega)]
    rw [hs]
    generalize hy : b + 1 + 8 * (b + 1) / 100 = y
    have hyr : returnMap b = (if y = 1 then 249 else if 249 ≤ y then 248
        else if 249 ≤ 251 - y + 8 * (251 - y) / 100 then 1
        else 250 - (251 - y + 8 * (251 - y) / 100)) := by
      simp [returnMap, hb1, hy]
    rw [hyr]
    by_cases hy1 : y = 1
    · left
      subst hy1
      have hq := untilTick_quiet 248 2 1 1 (by omega) (by omega)
      show untilTick (2 + 248) (1, 1) = _
      rw [hq, untilTick_stop 2 _ _ (by omega)]
      simp
    · have hy2 : 2 ≤ y := by omega
      by_cases hy3 : 249 ≤ y
      · left
        have h1 : untilTick 250 (1, y) = untilTick 249 (coupledStep (1, y)) :=
          untilTick_step 249 1 y (by omega)
        have h2 : coupledStep (1, y) = (2, 1) := by
          simp [coupledStep, publishesNext_true y hy3, publishesNext_false 1 (by omega),
            subtick_publish y _ hy3, subtick_heard 1 (by omega)]
        have hq := untilTick_quiet 247 2 2 1 (by omega) (by omega)
        rw [h1, h2]
        show untilTick (2 + 247) (2, 1) = _
        rw [hq, untilTick_stop 2 _ _ (by omega)]
        simp [hy1, hy3]
      · have hy4 : y < 249 := by omega
        -- quiet until the second engine publishes
        have hq := untilTick_quiet (249 - y) (y + 1) 1 y (by omega) (by omega)
        have hf : y + 1 + (249 - y) = 250 := by omega
        rw [hf] at hq
        have e1 : 1 + (249 - y) = 250 - y := by omega
        have e2 : y + (249 - y) = 249 := by omega
        rw [e1, e2] at hq
        have h1 : untilTick (y + 1) (250 - y, 249) = untilTick y (coupledStep (250 - y, 249)) :=
          untilTick_step y (250 - y) 249 (by omega)
        have h2 : coupledStep (250 - y, 249) =
            (251 - y + 8 * (251 - y) / 100, 1) := by
          have e3 : 250 - y + 1 = 251 - y := by omega
          simp [coupledStep, publishesNext_true 249 (by omega),
            publishesNext_false (250 - y) (by omega), subtick_publish 249 _ (by omega),
            subtick_heard (250 - y) (by omega), e3]
        rw [hq, h1, h2]
        generalize hz : 251 - y + 8 * (251 - y) / 100 = z
        have hz1 : 251 - y ≤ z := by omega
        by_cases hz2 : 249 ≤ z
        · right
          rw [untilTick_stop y _ _ hz2]
          simp [hy1, hy3, hz2]
        · left
          have hz3 : z < 249 := by omega
          have hq2 := untilTick_quiet (249 - z) (y - (249 - z)) z 1 (by omega) (by omega)
          have e4 : y - (249 - z) + (249 - z) = y := by omega
          have e5 : z + (249 - z) = 249 := by omega
          have e6 : 1 + (249 - z) = 250 - z := by omega
          rw [e4, e5, e6] at hq2
          rw [hq2, untilTick_stop _ _ _ (by omega)]
          simp [hy1, hy3, hz2]

theorem nextTick_snd (a b : Nat) (ha : 249 ≤ a) (hb : b ≤ 268) :
    (nextTick (a, b)).2 = returnMap b ∧ 249 ≤ (nextTick (a, b)).1 := by
  rcases nextTick_eq a b ha hb with h | h
  · rw [h]; exact ⟨rfl, Nat.le_refl _⟩
  · exact h

theorem subtick_le (h : Nat) (heard : Bool) (hh : h ≤ 268) : subtick h heard ≤ 268 := by
  by_cases hp : 249 ≤ h
  · rw [subtick_publish h heard hp]; omega
  · cases heard
    · rw [subtick_quiet h (by omega)]; omega
    · rw [subtick_heard h (by omega)]; omega

theorem subtick_gt (h : Nat) (heard : Bool) (hh : h < 249) : h + 1 ≤ subtick h heard := by
  cases heard
  · rw [subtick_quiet h (by omega)]
  · rw [subtick_heard h (by omega)]; omega

/-- From any state the first engine is about to publish within 250 subticks, and the
second engine's clock stays within its range. -/
theorem untilTick_reaches : ∀ (fuel a b : Nat), 249 ≤ a + fuel → b ≤ 268 →
    249 ≤ (untilTick fuel (a, b)).1 ∧ (untilTick fuel (a, b)).2 ≤ 268 := by
  intro fuel
  induction fuel with
  | zero => intro a b ha hb; exact ⟨by simpa [untilTick] using ha, by simpa [untilTick] using hb⟩
  | succ f ih =>
    intro a b ha hb
    by_cases hp : 249 ≤ a
    · rw [untilTick_stop _ a b hp]; exact ⟨hp, hb⟩
    · rw [untilTick_step f a b (by omega)]
      have h1 := subtick_gt a (publishesNext b) (by omega)
      have h2 := subtick_le b (publishesNext a) hb
      exact ih _ _ (by simp only [coupledStep]; omega) (by simpa [coupledStep] using h2)

theorem tickState_inv (a0 b0 : Nat) (hb : b0 ≤ 268) : ∀ k,
    249 ≤ (tickState a0 b0 k).1 ∧ (tickState a0 b0 k).2 ≤ 268 := by
  intro k
  induction k with
  | zero => exact untilTick_reaches 250 a0 b0 (by omega) hb
  | succ k ih =>
    have h := nextTick_snd (tickState a0 b0 k).1 (tickState a0 b0 k).2 ih.1 ih.2
    have hr : returnMap (tickState a0 b0 k).2 ≤ 268 := by
      unfold returnMap; split
      · omega
      · simp only; split
        · omega
        · split
          · omega
          · split <;> omega
    show 249 ≤ (nextTick (tickState a0 b0 k)).1 ∧ (nextTick (tickState a0 b0 k)).2 ≤ 268
    exact ⟨h.2, by rw [h.1]; exact hr⟩

theorem tickState_succ_snd (a0 b0 : Nat) (hb : b0 ≤ 268) (k : Nat) :
    (tickState a0 b0 (k + 1)).2 = returnMap (tickState a0 b0 k).2 := by
  have ih := tickState_inv a0 b0 hb k
  exact (nextTick_snd (tickState a0 b0 k).1 (tickState a0 b0 k).2 ih.1 ih.2).1

theorem tickState_snd_iterate (a0 b0 : Nat) (hb : b0 ≤ 268) (k : Nat) :
    (tickState a0 b0 k).2 = returnMap^[k] (tickState a0 b0 0).2 := by
  induction k with
  | zero => rfl
  | succ k ih => rw [tickState_succ_snd a0 b0 hb k, ih, Function.iterate_succ_apply']

theorem phaseOffset_snd (s : Nat × Nat) : phaseOffset s = phaseOffset (249, s.2) := rfl

set_option maxRecDepth 100000 in
theorem returnMap_offset_le : ∀ b, b < 269 →
    phaseOffset (249, returnMap b) ≤ phaseOffset (249, b) := by
  decide

set_option maxRecDepth 100000 in
theorem returnMap_converges : ∀ b, b < 269 → ¬ (117 ≤ b ∧ b ≤ 123) →
    phaseOffset (249, returnMap^[22] b) ≤ 1 := by
  decide

set_option maxRecDepth 100000 in
theorem returnMap_fixed : ∀ b, b < 124 → 117 ≤ b → returnMap b = b := by
  decide

theorem tickLoop_nil (pretty : PeerID → GoString) (nsub : NetworkSubscription) (cycles : Nat) :
    tickLoop pretty nsub cycles [] = [] := by
  cases cycles with
  | zero => rfl
  | succ c => simp [tickLoop, innerLoop, SubTicksPerTick]

/-- The inner loop followed by the rest of `tickLoop`, entered with any clock, is the
trace written with `subtick`. -/
theorem tickLoop_from_eq_engineTrace (pretty : PeerID → GoString) (nsub : NetworkSubscription) :
    ∀ (polls : List Poll) (h cycles : Nat), polls.length < cycles →
      (match innerLoop h polls with
        | (tr, none) => tr
        | (tr, some rest) =>
          tr ++ Event.publish strTick :: Event.display (selfDisplay pretty nsub) ::
            tickLoop pretty nsub cycles rest) = engineTrace pretty nsub h polls := by
  intro polls
  induction polls with
  | nil =>
    intro h cycles _
    by_cases hp : SubTicksPerTick ≤ h + 1
    · rw [innerLoop_break h [] hp]
      simp [engineTrace, publishesNext, hp, tickLoop_nil]
    · simp [innerLoop, engineTrace, publishesNext, hp]
  | cons p rest ih =>
    have hquiet : ∀ g, g + 1 < SubTicksPerTick → ∀ c, rest.length < c →
        (match innerLoop g (p :: rest) with
          | (tr, none) => tr
          | (tr, some r) =>
            tr ++ Event.publish strTick :: Event.display (selfDisplay pretty nsub) ::
              tickLoop pretty nsub c r) =
        Event.sleep :: ((match p with
          | Poll.msg tm => [Event.display (externalDisplay tm)]
          | _ => []) ++ engineTrace pretty nsub (subtick g p.isMsg) rest) := by
      intro g hg c hcr
      have hsub : subtick g p.isMsg = pollClock (g + 1) p.isMsg := by
        simp [subtick, Nat.not_le.mpr hg]
      rw [← ih (subtick g p.isMsg) c hcr, hsub]
      cases p with
      | msg tm =>
        rw [innerLoop_msg g tm rest hg]
        have e : pollClock (g + 1) (Poll.isMsg (Poll.msg tm)) = bumpClock (g + 1) := rfl
        rw [e]
        rcases innerLoop (bumpClock (g + 1)) rest with ⟨tr, _ | r⟩ <;> simp
      | closed =>
        rw [innerLoop_noMsg g Poll.closed rest hg rfl]
        have e : pollClock (g + 1) (Poll.isMsg Poll.closed) = g + 1 := rfl
        rw [e]
        rcases innerLoop (g + 1) rest with ⟨tr, _ | r⟩ <;> simp
      | empty =>
        rw [innerLoop_noMsg g Poll.empty rest hg rfl]
        have e : pollClock (g + 1) (Poll.isMsg Poll.empty) = g + 1 := rfl
        rw [e]
        rcases innerLoop (g + 1) rest with ⟨tr, _ | r⟩ <;> simp
    intro h cycles hc
    by_cases hp : SubTicksPerTick ≤ h + 1
    · rw [innerLoop_break h _ hp]
      obtain ⟨c, rfl⟩ : ∃ c, cycles = c + 1 := ⟨cycles - 1, by simp at hc; omega⟩
      have h0 := hquiet 0 (by decide) c (by simpa using hc)
      have hs : subtick h p.isMsg = subtick 0 p.isMsg := by
        have h1 : ¬ SubTicksPerTick ≤ 0 + 1 := by decide
        simp only [subtick, if_pos hp, if_neg h1]
      simp only [tickLoop, List.nil_append]
      rw [h0]
      simp [engineTrace, publishesNext, hp, hs]
    · have hg : h + 1 < SubTicksPerTick := Nat.not_le.mp hp
      rw [hquiet h hg cycles (by simp at hc; omega)]
      simp [engineTrace, publishesNext, hp]

/-- The trace of `tickLoop`, given enough cycles for the polls supplied, is the trace
of the engine written with `subtick` and `publishesNext`, started with clock 0. -/
theorem tickLoop_eq_engineTrace (pretty : PeerID → GoString) (nsub : NetworkSubscription)
    (polls : List Poll) (cycles : Nat) (hc : polls.length < cycles) :
    tickLoop pretty nsub (cycles + 1) polls = engineTrace pretty nsub 0 polls := by
  have h := tickLoop_from_eq_engineTrace pretty nsub polls 0 cycles hc
  rw [← h]
  simp only [tickLoop]

theorem phaseOffset_antitone (a0 b0 : Nat) (hb : b0 ≤ 268) (k : Nat) :
    phaseOffset (tickState a0 b0 (k + 1)) ≤ phaseOffset (tickState a0 b0 k) := by
  rw [phaseOffset_snd (tickState a0 b0 (k + 1)), phaseOffset_snd (tickState a0 b0 k),
    tickState_succ_snd a0 b0 hb k]
  exact returnMap_offset_le _ (by have := (tickState_inv a0 b0 hb k).2; omega)

theorem phaseOffset_antitone_add (a0 b0 : Nat) (hb : b0 ≤ 268) (k : Nat) : ∀ j,
    phaseOffset (tickState a0 b0 (k + j)) ≤ phaseOffset (tickState a0 b0 k) := by
  intro j
  induction j with
  | zero => exact Nat.le_refl _
  | succ j ih => exact Nat.le_trans (phaseOffset_antitone a0 b0 hb (k + j)) ih

theorem returnMap_iterate_fixed (b : Nat) (h1 : 117 ≤ b) (h2 : b ≤ 123) :
    ∀ k, returnMap^[k] b = b := by
  intro k
  induction k with
  | zero => rfl
  | succ k ih => rw [Function.iterate_succ_apply', ih]; exact returnMap_fixed b (by omega) h1

theorem phaseOffset_band (a b : Nat) (h1 : 117 ≤ b) (h2 : b ≤ 123) :
    phaseOffset (a, b) = b := by
  have : ¬ SubTicksPerTick ≤ b + 1 := by simp [SubTicksPerTick]; omega
  simp only [phaseOffset, this, if_false]
  omega

/-- C5, amended: two engines run the `tickLoop` counter algorithm in lock step, each
engine's poll finding a message exactly when the other engine published in that subtick.
For every pair of initial counters below 250 and every `k`: at the `k+1`-st tick of the
first engine the phase offset of the two engines (the distance of their counters on the
cycle of 249 subticks) is no larger after the following coupled cycle than before it; if
at the first tick the second engine's counter is not between 117 and 123, the offset is at
most one subtick from the 23rd tick on; if it is between 117 and 123 (near anti-phase,
where both engines are advanced by the same amount in every cycle), the offset keeps that
value at every tick. -/
theorem C5_offset_never_grows (a0 b0 : Nat) (ha : a0 < 250) (hb : b0 < 250) (k : Nat) :
    publishesNext (tickState a0 b0 k).1 = true ∧
      phaseOffset (tickState a0 b0 (k + 1)) ≤ phaseOffset (tickState a0 b0 k) ∧
      (¬ (117 ≤ (tickState a0 b0 0).2 ∧ (tickState a0 b0 0).2 ≤ 123) → 22 ≤ k →
        phaseOffset (tickState a0 b0 k) ≤ 1) ∧
      (117 ≤ (tickState a0 b0 0).2 ∧ (tickState a0 b0 0).2 ≤ 123 →
        phaseOffset (tickState a0 b0 k) = (tickState a0 b0 0).2) := by
  have _ := ha
  have hb2 : b0 ≤ 268 := by omega
  have hinv := tickState_inv a0 b0 hb2
  refine ⟨(publishesNext_iff _).mpr (hinv k).1, phaseOffset_antitone a0 b0 hb2 k, ?_, ?_⟩
  · intro hband hk
    obtain ⟨j, rfl⟩ : ∃ j, k = 22 + j := ⟨k - 22, by omega⟩
    refine Nat.le_trans (phaseOffset_antitone_add a0 b0 hb2 22 j) ?_
    rw [phaseOffset_snd, tickState_snd_iterate a0 b0 hb2 22]
    exact returnMap_converges _ (by have := (hinv 0).2; omega) hband
  · intro hband
    rw [phaseOffset_snd, tickState_snd_iterate a0 b0 hb2 k,
      returnMap_iterate_fixed _ hband.1 hband.2 k]
    exact phaseOffset_band _ _ hband.1 hband.2

theorem C5_offset_never_grows_witness :
    0 < 250 ∧ 100 < 250 ∧
      (publishesNext (tickState 0 100 22).1 = true ∧
        phaseOffset (tickState 0 100 (22 + 1)) ≤ phaseOffset (tickState 0 100 22) ∧
        (¬ (117 ≤ (tickState 0 100 0).2 ∧ (tickState 0 100 0).2 ≤ 123) → 22 ≤ 22 →
          phaseOffset (tickState 0 100 22) ≤ 1) ∧
        (117 ≤ (tickState 0 100 0).2 ∧ (tickState 0 100 0).2 ≤ 123 →
          phaseOffset (tickState 0 100 22) = (tickState 0 100 0).2)) :=
  ⟨by decide, by decide, C5_offset_never_grows 0 100 (by decide) (by decide) 22⟩

set_option maxRecDepth 100000 in
theorem tickState_0_130 : tickState 0 130 0 = (249, 121) := by
  decide

/-- C5, counterexample: started with counters 0 and 130, the engines reach the first
tick of the first engine with the second engine's counter at 121, and the phase offset
is 121 at every later tick: it never gets smaller, so it does not converge toward zero. -/
theorem C5_counterexample :
    tickState 0 130 0 = (249, 121) ∧ phaseOffset (tickState 0 130 0) = 121 ∧
      ¬ ∃ k, phaseOffset (tickState 0 130 k) < 121 := by
  have h0 := tickState_0_130
  refine ⟨h0, by rw [h0]; decide, ?_⟩
  rintro ⟨k, hk⟩
  have h1 := tickState_snd_iterate 0 130 (by omega) k
  rw [h0] at h1
  simp only at h1
  rw [returnMap_iterate_fixed 121 (by omega) (by omega) k] at h1
  rw [phaseOffset_snd, h1, phaseOffset_band 249 121 (by omega) (by omega)] at hk
  omega

end TickerNetwork
